import Mathlib

/-!
Verification development for the `qbs-tables` table type-inference system.

The repository has two source files:
  * `src/infer.py` — a catalogue of cell types (`CellType` and its
    subclasses), a unification engine over the parent DAG, and the
    value/column inferrer (`Inferrer`);
  * `src/geo.py` — the geographic registry (`GeoNames`).

This file is a shallow embedding of those definitions.  Conventions:
  * Python strings are Lean `String` / `List Char`; helper parsers work on
    `List Char` and are wrapped for `String`.
  * Python `int(s)` / `float(s)` parsing is modelled by `pyIntL` /
    `pyFloatL`.  A Python `float` value is modelled exactly: the parsed
    decimal `m · 10^(-k)` is kept as the pair `(m, k)` (no binary rounding
    and no overflow to infinity is modelled); the special values
    `inf` / `-inf` / `nan` are separate constructors.  Scale-suffix
    multiplication in `NumberType` / `RateType` multiplies these exact
    values, and `str(float)` is modelled by the exact decimal rendering
    `renderPyNum` (no 12-significant-digit truncation, no switch to
    exponent notation).  All properties proved here hold at this exact
    level.
  * A conversion that raises `ValueError` in Python is modelled by an
    `Option`-returning function yielding `none`.
  * Dictionary iteration order in `RateType.SUFFIXES` is modelled as the
    declaration order `%`, `pc`, `percent`, `ppm`; no two of those
    suffixes can match the same string end, and all theorems below that
    involve suffix stripping are insensitive to this order.
-/

/-! ## Character classes and basic list utilities -/

/-- The characters stripped by Python's `str.strip()`. -/
def isPyWS (c : Char) : Bool :=
  c = ' ' || c = '\t' || c = '\n' || c = '\x0d' || c = '\x0b' || c = '\x0c'

/-- Characters kept by `s.translate(None, ", ")` in `NumberType.convert` /
`RateType.convert` (everything except comma and space). -/
def notCS (c : Char) : Bool := !(c = ',' || c = ' ')

/-- Strip `isPyWS` characters from both ends (Python `str.strip()`). -/
def trimWS (l : List Char) : List Char :=
  ((l.dropWhile isPyWS).reverse.dropWhile isPyWS).reverse

/-- Append an element to an accumulating list unless it is already present —
the dedup step used by `CellType._append_path`. -/
def pushNew {α : Type} [DecidableEq α] (r : List α) (x : α) : List α :=
  if x ∈ r then r else r ++ [x]

/-! ## Decimal digits: parsing and rendering -/

/-- Accumulating decimal read of a digit string (helper of `digitsVal`). -/
def digitsGo : List Char → Nat → Option Nat
  | [], acc => some acc
  | c :: cs, acc =>
    if c.isDigit then digitsGo cs (10 * acc + (c.toNat - 48)) else none

/-- Value of a nonempty all-digit string, else `none`. -/
def digitsVal : List Char → Option Nat
  | [] => none
  | l => digitsGo l 0

/-- The character for a decimal digit. -/
def natDigit (n : Nat) : Char := Char.ofNat (48 + n)

/-- Decimal rendering of a natural number, most significant digit first,
with explicit fuel (the source's `str(int)` rendering). -/
def renderNatAux : Nat → Nat → List Char
  | 0, _ => []
  | fuel + 1, n =>
    if n < 10 then [natDigit n]
    else renderNatAux fuel (n / 10) ++ [natDigit (n % 10)]

/-- Decimal rendering of a natural number. -/
def renderNat (n : Nat) : List Char := renderNatAux (n + 1) n

/-- Sign prefix of Python's decimal rendering of an integer. -/
def signPrefix (i : Int) : List Char := if i < 0 then ['-'] else []

/-- Decimal rendering of an integer (Python `str(int)`). -/
def renderInt (i : Int) : List Char := signPrefix i ++ renderNat i.natAbs

/-- `renderInt` as a `String`. -/
def renderIntStr (i : Int) : String := (renderInt i).asString

/-! ## Python `int(s)` -/

/-- Take an optional leading sign; returns whether it was `-` and the
rest. -/
def parseSign (l : List Char) : Bool × List Char :=
  match l with
  | [] => (false, [])
  | c :: r => if c = '+' then (false, r) else if c = '-' then (true, r) else (false, c :: r)

/-- Python 2 `int(s)`: strip whitespace, optional sign, nonempty decimal
digit string. -/
def pyIntL (l : List Char) : Option Int :=
  let s := parseSign (trimWS l)
  (digitsVal s.2).map (fun n => if s.1 then -(n : Int) else (n : Int))

/-- `pyIntL` on a `String`. -/
def pyInt (s : String) : Option Int := pyIntL s.toList

/-! ## Python `float(s)` -/

/-- The result of parsing a Python float literal: an exact finite decimal
`m · 10^(-k)`, an infinity, or `nan`. -/
inductive FVal : Type
  | fin (m : Int) (k : Nat)
  | pinf
  | ninf
  | nan
deriving DecidableEq, Repr

/-- Split a list at the first character satisfying `p`; returns the prefix
and, when found, the suffix after the split character. -/
def breakAtP (p : Char → Bool) : List Char → List Char × Option (List Char)
  | [] => ([], none)
  | x :: xs =>
    if p x then ([], some xs)
    else
      let r := breakAtP p xs
      (x :: r.1, r.2)

/-- Value of a possibly empty all-digit string (`none` on a non-digit). -/
def digitsValOpt (l : List Char) : Option Nat :=
  digitsGo l 0

/-- Parse the unsigned body of a float literal: mantissa with optional
fraction part and optional exponent.  Returns `(m, k)` with the value
`m · 10^(-k)`, where `m ≥ 0`. -/
def pyFloatBody (l : List Char) : Option (Nat × Nat) :=
  let em := breakAtP (fun c => c = 'e' || c = 'E') l
  let mant := em.1
  let dm := breakAtP (fun c => c = '.') mant
  let intPart := dm.1
  let fracPart := (dm.2).getD []
  if intPart = [] ∧ fracPart = [] then none
  else
    match digitsValOpt (intPart ++ fracPart) with
    | none => none
    | some m =>
      let k := fracPart.length
      match em.2 with
      | none => some (m, k)
      | some expPart =>
        let es := parseSign expPart
        match digitsVal es.2 with
        | none => none
        | some en =>
          if es.1 then some (m, k + en)
          else if k ≤ en then some (m * 10 ^ (en - k), 0) else some (m, k - en)

/-- Python 2 `float(s)`: strip whitespace, optional sign, then either one
of the words `inf` / `infinity` / `nan` (case-insensitive) or a decimal
mantissa with optional exponent. -/
def pyFloatL (l : List Char) : Option FVal :=
  let s := parseSign (trimWS l)
  let low := s.2.map Char.toLower
  if low = "inf".toList ∨ low = "infinity".toList then
    some (if s.1 then FVal.ninf else FVal.pinf)
  else if low = "nan".toList then some FVal.nan
  else
    match pyFloatBody s.2 with
    | none => none
    | some (m, k) =>
      some (FVal.fin (if s.1 then -(m : Int) else (m : Int)) k)

/-! ## Python numeric values and their `str` rendering -/

/-- A value produced by `NumberType.convert` and its subclasses: a Python
`int` or a Python `float` (the float kept as the exact decimal
`m · 10^(-k)`, or a special value). -/
inductive PyNum : Type
  | int (n : Int)
  | flt (m : Int) (k : Nat)
  | inf (neg : Bool)
  | nan
deriving DecidableEq, Repr

/-- The exact rational value of a finite `PyNum` (`none` for `inf`/`nan`).
Used to state scale-factor properties. -/
def PyNum.toRat : PyNum → Option ℚ
  | .int n => some (n : ℚ)
  | .flt m k => some ((m : ℚ) / 10 ^ k)
  | .inf _ => none
  | .nan => none

/-- Decimal rendering of the float value `m · 10^(-k)` (Python `str(float)`
on the exact value): `k = 0` renders as `m.0`, otherwise the digits of `m`
are zero-padded to at least `k + 1` digits and the point is placed `k`
digits from the right. -/
def renderFlt (m : Int) (k : Nat) : List Char :=
  if k = 0 then renderInt m ++ ['.', '0']
  else
    let ds := renderNat m.natAbs
    let pad := List.replicate (k + 1 - ds.length) '0' ++ ds
    signPrefix m ++ pad.take (pad.length - k) ++ '.' :: pad.drop (pad.length - k)

/-- Python `str` of a `PyNum` (the index form `CellType.to_index` computes
for numeric types). -/
def renderPyNum : PyNum → List Char
  | .int n => renderInt n
  | .flt m k => renderFlt m k
  | .inf neg => if neg then ['-', 'i', 'n', 'f'] else ['i', 'n', 'f']
  | .nan => ['n', 'a', 'n']

/-- `renderPyNum` as a `String`. -/
def renderPyNumStr (v : PyNum) : String := (renderPyNum v).asString

/-! ## Conversions of the individual cell types (`src/infer.py`)

Each `xxxConvert` models `XxxType.convert`: `none` is a raised
`ValueError`. -/

/-- `MissingType.convert` on a non-`None` cell: accepts the empty string
and a fixed set of placeholder tokens, compared after `upper()`. -/
def missingAccepts (s : String) : Bool :=
  let u := (s.toList.map Char.toUpper).asString
  u = "" || u = "\\N" || u = "NA" || u = "N/A" || u = "UNK" || u = "N.A" || u = "N.A."

/-- `StringType.convert`: total, returns the string unchanged. -/
def stringConvert (s : String) : Option String := some s

/-- `BoolType.convert`: case-insensitive `t`/`true`/`y`/`yes` and
`f`/`false`/`n`/`no`. -/
def boolConvert (s : String) : Option Bool :=
  let low := (s.toList.map Char.toLower).asString
  if low = "t" ∨ low = "true" ∨ low = "y" ∨ low = "yes" then some true
  else if low = "f" ∨ low = "false" ∨ low = "n" ∨ low = "no" then some false
  else none

/-- `BoolFromIntType.convert`: `int(s)` equal to `1` or `0`. -/
def boolFromIntConvert (s : String) : Option Bool :=
  match pyInt s with
  | some 1 => some true
  | some 0 => some false
  | _ => none

/-- `NumberType.SUFFIXES`: trailing scale suffixes with their integer
multipliers. -/
def numSuffix (c : Char) : Option Int :=
  if c = 'B' then some 1000000000
  else if c = 'M' then some 1000000
  else if c = 'k' then some 1000
  else none

/-- The suffix step of `NumberType.convert`: when more than one character
remains, look the last character up in `SUFFIXES` and strip it on a hit
(`mult` stays 1 on a `KeyError`). -/
def numStrip (l : List Char) : Int × List Char :=
  if 1 < l.length then
    match l.getLast? with
    | some c =>
      match numSuffix c with
      | some m => (m, l.dropLast)
      | none => (1, l)
    | none => (1, l)
  else (1, l)

/-- `NumberType.convert` on a char list: strip commas and spaces, take an
optional scale suffix when more than one character remains, then try
`int(s)` and fall back to `float(s)`. -/
def numberConvertL (l0 : List Char) : Option PyNum :=
  let l := l0.filter notCS
  let ml : Int × List Char := numStrip l
  match pyIntL ml.2 with
  | some n => some (.int (ml.1 * n))
  | none =>
    match pyFloatL ml.2 with
    | some (.fin m k) => some (.flt (ml.1 * m) k)
    | some .pinf => some (.inf false)
    | some .ninf => some (.inf true)
    | some .nan => some .nan
    | none => none

/-- `NumberType.convert`. -/
def numberConvert (s : String) : Option PyNum := numberConvertL s.toList

/-- `RateType.SUFFIXES` in declaration order, each with the exponent `k`
of its scale factor `10^(-k)`. -/
def rateSuffixes : List (List Char × Nat) :=
  [(['%'], 3), (['p', 'c'], 3), (['p', 'e', 'r', 'c', 'e', 'n', 't'], 3),
   (['p', 'p', 'm'], 6)]

/-- The suffix-stripping loop of `RateType.convert`: starting from
`mult = 0` (modelled as `none`), each suffix in turn is stripped when it
currently ends the string. -/
def rateStrip (l : List Char) : Option Nat × List Char :=
  rateSuffixes.foldl
    (fun st suff =>
      if suff.1.isSuffixOf st.2 then
        (some suff.2, st.2.take (st.2.length - suff.1.length))
      else st)
    (none, l)

/-- `RateType.convert`: like `NumberType.convert` but a recognised suffix
is mandatory; the result is always a Python float (`mult` is a float). -/
def rateConvertL (l0 : List Char) : Option PyNum :=
  let l := l0.filter notCS
  let st := if 1 < l.length then rateStrip l else (none, l)
  match st.1 with
  | none => none
  | some kshift =>
    match pyIntL st.2 with
    | some n => some (.flt n kshift)
    | none =>
      match pyFloatL st.2 with
      | some (.fin m k) => some (.flt m (k + kshift))
      | some .pinf => some (.inf false)
      | some .ninf => some (.inf true)
      | some .nan => some .nan
      | none => none

/-- `RateType.convert`. -/
def rateConvert (s : String) : Option PyNum := rateConvertL s.toList

/-- `CurrencyType.convert`: a leading `$` (with at least one further
character) followed by a valid `NumberType` value. -/
def currencyConvert (s : String) : Option PyNum :=
  match s.toList with
  | '$' :: rest => if rest = [] then none else numberConvertL rest
  | _ => none

/-- `YearType.convert`: `int(s)` restricted to `[1700, 2100]`. -/
def yearConvert (s : String) : Option Int :=
  (pyInt s).bind (fun y => if y < 1700 ∨ 2100 < y then none else some y)

/-- `YearType.to_index`: `str(int(s))` — no range check. -/
def yearToIndex (s : String) : Option String :=
  (pyInt s).map renderIntStr

/-- Worker for `splitChar`: `acc` holds the current field reversed. -/
def splitCharGo (c : Char) : List Char → List Char → List (List Char)
  | [], acc => [acc.reverse]
  | x :: xs, acc =>
    if x = c then acc.reverse :: splitCharGo c xs []
    else splitCharGo c xs (x :: acc)

/-- Split a char list at every occurrence of a separator character
(Python `s.split(sep)` for a single-character separator). -/
def splitChar (c : Char) (l : List Char) : List (List Char) :=
  splitCharGo c l []

/-- `FYType.convert`: `"A-B"` with `A ∈ [1800, 2100]` and either
`B = A + 1` or `B < 100 ∧ B = (A+1) % 100`; the value is `A`. -/
def fyConvert (s : String) : Option Int :=
  match splitChar '-' s.toList with
  | [sa, sb] =>
    match pyIntL sa, pyIntL sb with
    | some a, some b =>
      if a < 1800 ∨ 2100 < a then none
      else if b = a + 1 then some a
      else if b < 100 ∧ b = (a + 1) % 100 then some a
      else none
    | _, _ => none
  | _ => none

/-- `YearRangeType.convert`: `"A-B"`, both parts `int`-parsable, with only
`A` checked against `[1800, 2100]`; the value is the pair `(A, B)`. -/
def yearRangeConvert (s : String) : Option (Int × Int) :=
  match splitChar '-' s.toList with
  | [sa, sb] =>
    match pyIntL sa, pyIntL sb with
    | some a, some b => if a < 1800 ∨ 2100 < a then none else some (a, b)
    | _, _ => none
  | _ => none

/-- `DecadeType.convert`: at least three characters, ending in `0s`; the
value is `int(s[0:-1])` (the trailing `s` dropped, the `0` kept). -/
def decadeConvert (s : String) : Option Int :=
  let l := s.toList
  if l.length < 3 then none
  else if l.getLast? ≠ some 's' then none
  else if l.dropLast.getLast? ≠ some '0' then none
  else pyIntL l.dropLast

/-- `DecadeType.to_index` (inherited `CellType.to_index`):
`str(convert(s))`. -/
def decadeToIndex (s : String) : Option String :=
  (decadeConvert s).map renderIntStr

/-- The query disjunction built by `DecadeType.to_term` and
`YearRangeType.to_query_op`: one wildcarded year per element, each tagged
with the `date` extent. -/
def orYears (years : List Int) : String :=
  "#or( " ++ String.join (years.map (fun y => renderIntStr y ++ "*.date ")) ++ ")"

/-- `DecadeType.to_term`: same shape checks as `convert`; a start below
100 is shifted into the 1900s; renders the ten years of the decade. -/
def decadeToTerm (s : String) : Option String :=
  let l := s.toList
  if l.length < 3 then none
  else if l.getLast? ≠ some 's' then none
  else if l.dropLast.getLast? ≠ some '0' then none
  else
    match pyIntL l.dropLast with
    | none => none
    | some start =>
      let start := if start < 100 then start + 1900 else start
      some (orYears ((List.range 10).map (fun i => start + (i : Int))))

/-! ## `DateType.convert`: the `strptime` format list

`DateType.FORMATS` is matched with CPython's `_strptime` semantics:
`%Y` is exactly four digits; `%m` is `1[0-2]|0[1-9]|[1-9]`; `%d` is
`3[01]|[12]\d|0[1-9]|[1-9]`; `%b` / `%B` are the C-locale month names
(case-insensitive, longest names tried first); literal whitespace in the
format matches one or more whitespace characters; alternatives are tried
in regex order with backtracking; the whole input must be consumed; the
parsed date must be a valid calendar date; and `strftime` (Python 2)
rejects years before 1900.  The format `"%d %B %&"` contains the invalid
directive `%&`, so `strptime` raises `ValueError` for it on every input:
it is modelled by the always-failing token `bad`. -/

/-- One token of a `strptime` format string. -/
inductive FmtTok : Type
  | lit (c : Char)
  | ws
  | dY
  | dm
  | dd
  | db
  | dB
  | bad
deriving DecidableEq, Repr

/-- Fields recovered from a format match. -/
structure DateParts where
  year : Option Nat := none
  month : Option Nat := none
  day : Option Nat := none
deriving DecidableEq, Repr

/-- C-locale abbreviated month names in regex alternation order (all the
same length, so locale order is kept). -/
def monthAbbrevs : List (List Char × Nat) :=
  [("jan".toList, 1), ("feb".toList, 2), ("mar".toList, 3), ("apr".toList, 4),
   ("may".toList, 5), ("jun".toList, 6), ("jul".toList, 7), ("aug".toList, 8),
   ("sep".toList, 9), ("oct".toList, 10), ("nov".toList, 11), ("dec".toList, 12)]

/-- C-locale full month names sorted longest first (stable), the
alternation order `_strptime` builds. -/
def monthFulls : List (List Char × Nat) :=
  [("september".toList, 9), ("february".toList, 2), ("november".toList, 11),
   ("december".toList, 12), ("january".toList, 1), ("october".toList, 10),
   ("august".toList, 8), ("march".toList, 3), ("april".toList, 4),
   ("june".toList, 6), ("july".toList, 7), ("may".toList, 5)]

/-- Does `w` start the input case-insensitively?  Returns the rest. -/
def stripWordCI (w : List Char) (l : List Char) : Option (List Char) :=
  match w, l with
  | [], rest => some rest
  | _ :: _, [] => none
  | c :: ws, x :: xs => if x.toLower = c then stripWordCI ws xs else none

/-- The decimal value of `n` leading digit characters, if present. -/
def takeDigits : Nat → List Char → Option (Nat × List Char)
  | 0, l => some (0, l)
  | _ + 1, [] => (none : Option (Nat × List Char))
  | n + 1, c :: cs =>
    if c.isDigit then
      (takeDigits n cs).map (fun r => ((c.toNat - 48) * 10 ^ n + r.1, r.2))
    else none

/-- The ways a single numeric/name token can consume input, in regex
alternation order; each way gives the captured value and the rest. -/
def tokWays : FmtTok → List Char → List (Option Nat × List Char)
  | .lit c, l =>
    match l with
    | x :: xs => if x = c then [(none, xs)] else []
    | [] => []
  | .ws, l =>
    -- `\s+`: greedy, longest first.
    let n := (l.takeWhile isPyWS).length
    ((List.range n).map (fun i => ((none : Option Nat), l.drop (n - i))))
  | .dY, l => match takeDigits 4 l with
    | some (v, rest) => [(some v, rest)]
    | none => []
  | .dm, l =>
    (match l with
     | x :: y :: xs =>
       if x = '1' ∧ ('0' ≤ y ∧ y ≤ '2') then [(some (10 + (y.toNat - 48)), xs)]
       else if x = '0' ∧ ('1' ≤ y ∧ y ≤ '9') then [(some (y.toNat - 48), xs)]
       else []
     | _ => []) ++
    (match l with
     | x :: xs => if '1' ≤ x ∧ x ≤ '9' then [(some (x.toNat - 48), xs)] else []
     | [] => [])
  | .dd, l =>
    (match l with
     | x :: y :: xs =>
       if x = '3' ∧ ('0' ≤ y ∧ y ≤ '1') then [(some (30 + (y.toNat - 48)), xs)]
       else if ('1' ≤ x ∧ x ≤ '2') ∧ y.isDigit then
         [(some ((x.toNat - 48) * 10 + (y.toNat - 48)), xs)]
       else if x = '0' ∧ ('1' ≤ y ∧ y ≤ '9') then [(some (y.toNat - 48), xs)]
       else []
     | _ => []) ++
    (match l with
     | x :: xs => if '1' ≤ x ∧ x ≤ '9' then [(some (x.toNat - 48), xs)] else []
     | [] => [])
  | .db, l =>
    monthAbbrevs.filterMap (fun w => (stripWordCI w.1 l).map (fun r => (some w.2, r)))
  | .dB, l =>
    monthFulls.filterMap (fun w => (stripWordCI w.1 l).map (fun r => (some w.2, r)))
  | .bad, _ => []

/-- Store a captured value into the parts record for its token. -/
def storeTok (t : FmtTok) (v : Option Nat) (p : DateParts) : DateParts :=
  match t, v with
  | .dY, some v => { p with year := some v }
  | .dm, some v => { p with month := some v }
  | .db, some v => { p with month := some v }
  | .dB, some v => { p with month := some v }
  | .dd, some v => { p with day := some v }
  | _, _ => p

/-- First successful way of consuming the remaining tokens (regex
backtracking over alternation order). -/
def matchToks : List FmtTok → List Char → DateParts → Option DateParts
  | [], l, p => if l = [] then some p else none
  | t :: ts, l, p =>
    (tokWays t l).foldl
      (fun acc way =>
        match acc with
        | some r => some r
        | none => matchToks ts way.2 (storeTok t way.1 p))
      none

/-- Is `y` a Gregorian leap year? -/
def isLeap (y : Nat) : Bool := y % 4 = 0 && (y % 100 ≠ 0 || y % 400 = 0)

/-- Days in a month (the `datetime` constructor's validation). -/
def monthLen (y m : Nat) : Nat :=
  if m = 2 then (if isLeap y then 29 else 28)
  else if m = 4 ∨ m = 6 ∨ m = 9 ∨ m = 11 then 30
  else 31

/-- Zero-padded decimal rendering (for `strftime` `%Y`, `%m`, `%d`). -/
def padNum (width n : Nat) : List Char :=
  let ds := renderNat n
  List.replicate (width - ds.length) '0' ++ ds

/-- One entry of `DateType.FORMATS`: token list plus whether the format
mentions a month (`%b`/`%B`/`%m`) and a day (`%d`) directive — which
determines the output format `%Y`, `%Y_%m`, or `%Y_%m_%d`. -/
structure DateFmt where
  toks : List FmtTok
  hasMonth : Bool
  hasDay : Bool

/-- `DateType.FORMATS` in source order. -/
def dateFormats : List DateFmt :=
  [ ⟨[.db, .ws, .dY], true, false⟩,        -- '%b %Y'
    ⟨[.dY, .ws, .db], true, false⟩,        -- '%Y %b'
    ⟨[.db, .lit '-', .dY], true, false⟩,   -- '%b-%Y'
    ⟨[.dY, .lit '-', .db], true, false⟩,   -- '%Y-%b'
    ⟨[.dB, .ws, .dY], true, false⟩,        -- '%B %Y'
    ⟨[.dY, .ws, .dB], true, false⟩,        -- '%Y %B'
    ⟨[.dB, .lit '-', .dY], true, false⟩,   -- '%B-%Y'
    ⟨[.dY, .lit '-', .dB], true, false⟩,   -- '%Y-%B'
    ⟨[.dm, .lit '/', .dY], true, false⟩,   -- '%m/%Y'
    ⟨[.dY, .dm], true, false⟩,             -- '%Y%m'
    ⟨[.dY, .lit '-', .dm], true, false⟩,   -- '%Y-%m'
    ⟨[.dm, .lit '-', .dY], true, false⟩,   -- '%m-%Y'
    ⟨[.dd, .ws, .db, .ws, .dY], true, true⟩,   -- '%d %b %Y'
    ⟨[.dY, .ws, .db, .ws, .dd], true, true⟩,   -- '%Y %b %d'
    ⟨[.bad], true, true⟩,                      -- '%d %B %&' (invalid directive)
    ⟨[.dY, .ws, .dB, .ws, .dd], true, true⟩,   -- '%Y %B %d'
    ⟨[.dd, .lit '/', .dm, .lit '/', .dY], true, true⟩,  -- '%d/%m/%Y'
    ⟨[.dY, .dm, .dd], true, true⟩,             -- '%Y%m%d'
    ⟨[.dY, .lit '-', .dm, .lit '-', .dd], true, true⟩ ] -- '%Y-%m-%d'

/-- Try one format: match, validate the calendar date (defaults
year 1900, month 1, day 1), reject years before 1900 (Python 2
`strftime`) or zero (`datetime.MINYEAR`), and render the output. -/
def tryFormat (f : DateFmt) (l : List Char) : Option String :=
  match matchToks f.toks l {} with
  | none => none
  | some p =>
    let y := p.year.getD 1900
    let m := p.month.getD 1
    let d := p.day.getD 1
    if y = 0 ∨ d > monthLen y m then none
    else if y < 1900 then none
    else
      some ((padNum 4 y ++
             (if f.hasMonth then '_' :: padNum 2 m else []) ++
             (if f.hasDay then '_' :: padNum 2 d else [])).asString)

/-- `DateType.convert`: the first format that parses wins. -/
def dateConvert (s : String) : Option String :=
  dateFormats.foldl
    (fun acc f => match acc with | some r => some r | none => tryFormat f s.toList)
    none

/-! ## The geographic registry (`src/geo.py`) -/

/-- The state of a constructed `GeoNames` registry.  The admin-code
dictionaries are modelled as total functions (the source raises `KeyError`
on a missing code; every theorem below only exercises present keys), the
name and alias dictionaries as `Option`-valued lookups.  All stored names
are in normalised form, as the reader methods guarantee. -/
structure GeoNames where
  country : String
  admin1 : String → String
  admin2 : String → String
  names : String → Option (String × String)
  alternates : String → Option String

/-- `GeoNames._normalise`: strip, lower-case, delete `,`, `-`, `.`, ` `. -/
def geoNormalise (s : String) : String :=
  (((trimWS s.toList).map Char.toLower).filter
    (fun c => !(c = ',' || c = '-' || c = '.' || c = ' '))).asString

/-- `GeoNames._expand`: substitute through the alias table if present. -/
def geoAlias (g : GeoNames) (name : String) : String :=
  match g.alternates name with
  | some full => full
  | none => name

/-- `GeoNames.exists`: normalise, expand aliases, then require a known
canonical place or the country name. -/
def geoLookup (g : GeoNames) (name : String) : Option String :=
  let n := geoAlias g (geoNormalise name)
  if (g.names n).isSome then some n
  else if n = g.country then some n
  else none

/-- `GeoNames.extend`: expand a place name to its full hierarchical form.
Mirrors the suppression rules of the source, including the
`'stateof' + admin1name == name` special case, which blanks the place's
own segment while keeping the admin-1 name (without a trailing
separator of its own). -/
def geoExtend (g : GeoNames) (name : String) : Option String :=
  match geoLookup g name with
  | none => none
  | some n =>
    if n = g.country then some n
    else
      match g.names n with
      | none => none
      | some (a1, a2) =>
        let a2name :=
          if a2 ≠ "" then
            let x := g.admin2 a2
            if x = n then "" else if x ≠ "" then x ++ "_" else x
          else ""
        let st : String × String :=
          if a1 ≠ "" then
            let x := g.admin1 a1
            if x = n then ("", n)
            else if "stateof" ++ x = n then (x, "")
            else if x ≠ "" then (x ++ "_", n)
            else (x, n)
          else ("", n)
        some (g.country ++ "_" ++ st.1 ++ a2name ++ st.2)

/-- `GeoType.convert`: succeeds exactly when `extend` resolves the name. -/
def geoConvert (g : GeoNames) (s : String) : Option String := geoExtend g s

/-! ## The type catalogue and unification engine -/

/-- The cell types defined in `src/infer.py`, one constructor per class
(including `FYType`, which is defined but not listed in
`Inferrer.known_types`). -/
inductive CellT : Type
  | missing
  | string
  | number
  | rate
  | currency
  | bool
  | boolFromInt
  | date
  | year
  | fy
  | yearRange
  | decade
  | geo
deriving DecidableEq, Repr

/-- `parents()` of each type, in declaration order. -/
def parents : CellT → List CellT
  | .missing => []
  | .string => []
  | .number => [.string]
  | .rate => [.number]
  | .currency => [.number]
  | .bool => [.string]
  | .boolFromInt => [.number]
  | .date => [.string]
  | .year => [.date, .number]
  | .fy => [.date]
  | .yearRange => [.date]
  | .decade => [.number]
  | .geo => [.string]

/-- `CellType._append_path`: append the direct parents not already
present, then recurse into each parent.  The fuel bounds the recursion
depth; `13` (the number of types) is more than the DAG's depth. -/
def appendPath : Nat → CellT → List CellT → List CellT
  | 0, _, ret => ret
  | fuel + 1, cls, ret =>
    let ret := (parents cls).foldl pushNew ret
    (parents cls).foldl (fun r p => appendPath fuel p r) ret

/-- `CellType.get_path`: the node followed by its ancestors. -/
def getPath (t : CellT) : List CellT := appendPath 13 t [t]

/-- `CellType.unify_two`: equal types unify to themselves; `Missing` is an
identity; otherwise the first entry of `a`'s path that also lies on `b`'s
path; `none` when there is no common ancestor. -/
def unifyTwo (a b : CellT) : Option CellT :=
  if a = b then some a
  else if a = .missing then some b
  else if b = .missing then some a
  else (getPath a).find? (fun t => t ∈ getPath b)

/-- The ancestor path as the specification describes it: the type,
followed by its parents in declaration order, followed by each parent's
own ancestor path, skipping entries already present. -/
def pathSpecF : Nat → CellT → List CellT
  | 0, t => [t]
  | fuel + 1, t =>
    let base := (parents t).foldl pushNew [t]
    (parents t).foldl (fun acc p => (pathSpecF fuel p).foldl pushNew acc) base

/-- The specification's `ancestor_path`. -/
def ancestorPathSpec (t : CellT) : List CellT := pathSpecF 13 t

/-- First element of `p` that also occurs in `q` (the specification's
description of unification for distinct non-Missing types). -/
def firstCommon (p q : List CellT) : Option CellT := p.find? (fun t => t ∈ q)

/-- `Inferrer.known_types` in source order.  `FYType` and `MissingType`
are not listed. -/
def knownTypes : List CellT :=
  [.string, .number, .rate, .currency, .bool, .boolFromInt,
   .date, .year, .yearRange, .decade, .geo]

/-- `extent()` of each type, following the class inheritance of the
source (`YearType`, `FYType`, `YearRangeType` and `DecadeType` inherit
`DateType.extent`). -/
def extent : CellT → String
  | .missing => "missing"
  | .string => "string"
  | .number => "number"
  | .rate => "rate"
  | .currency => "currency"
  | .bool => "bool"
  | .boolFromInt => "bool"
  | .date => "date"
  | .year => "date"
  | .fy => "date"
  | .yearRange => "date"
  | .decade => "date"
  | .geo => "placename"

/-! ## The inferrer (`Inferrer` in `src/infer.py`) -/

/-- Does type `t`'s conversion succeed on the (already stripped) string
`s`?  The geographic registry `g` only matters for `GeoType`. -/
def accepts (g : GeoNames) (t : CellT) (s : String) : Bool :=
  match t with
  | .missing => missingAccepts s
  | .string => (stringConvert s).isSome
  | .number => (numberConvert s).isSome
  | .rate => (rateConvert s).isSome
  | .currency => (currencyConvert s).isSome
  | .bool => (boolConvert s).isSome
  | .boolFromInt => (boolFromIntConvert s).isSome
  | .date => (dateConvert s).isSome
  | .year => (yearConvert s).isSome
  | .fy => (fyConvert s).isSome
  | .yearRange => (yearRangeConvert s).isSome
  | .decade => (decadeConvert s).isSome
  | .geo => (geoConvert g s).isSome

/-- Python `s.strip()` on a `String`. -/
def stripStr (s : String) : String := (trimWS s.toList).asString

/-- `Inferrer.infer_one_value`, parametrised by the trial order `order`
(the source's `types_m2l`, a most-restrictive-first linearisation whose
order within a topological level is an unspecified library detail):
`None` cells are Missing; stripped values matching the Missing domain are
Missing; otherwise the first type in `order` whose conversion succeeds. -/
def inferOneValue (g : GeoNames) (order : List CellT) (cell : Option String) :
    Option CellT :=
  match cell with
  | none => some .missing
  | some s =>
    let s := stripStr s
    if missingAccepts s then some .missing
    else order.find? (fun t => accepts g t s)

/-- `order` is a valid stand-in for the source's `types_m2l`: it holds
exactly the known types and lists every type before all of its proper
ancestors.  The actual `types_m2l` (reversed topological order) satisfies
this. -/
def ValidOrder (order : List CellT) : Prop :=
  (∀ t ∈ order, t ∈ knownTypes) ∧ (∀ t ∈ knownTypes, t ∈ order) ∧
  (∀ t ∈ order, ∀ u ∈ getPath t, u ≠ t → order.indexOf t < order.indexOf u)

instance : DecidablePred ValidOrder := fun _ =>
  inferInstanceAs (Decidable (_ ∧ _ ∧ _))

/-- One valid trial order (reversed level order of the parent DAG). -/
def order0 : List CellT :=
  [.rate, .currency, .boolFromInt, .year, .yearRange, .decade,
   .number, .bool, .date, .geo, .string]

/-- `CellType.unify_two` lifted to possibly-absent types.  The source
raises `ValueError` when either argument is Python `None`; that case is
modelled as `none` (it is unreachable from the inferrer, whose results
always include `StringType` as a fallback). -/
def unifyTwoOpt : Option CellT → Option CellT → Option CellT
  | some a, some b => unifyTwo a b
  | _, _ => none

/-- `CellType.unify`: `reduce(unify_two, ts)` with the empty list mapped
to `None`. -/
def unifyList : List (Option CellT) → Option CellT
  | [] => none
  | t :: ts => ts.foldl unifyTwoOpt t

/-- `Inferrer.infer_one_column`: returns the detected header cell (if
any) and the unified type of the remaining cells. -/
def inferOneColumn (g : GeoNames) (order : List CellT)
    (col : List (Option String)) : Option String × Option CellT :=
  match col with
  | [] => (none, none)
  | [c] => (c, none)
  | c0 :: rest =>
    let best := unifyList (rest.map (inferOneValue g order))
    match inferOneValue g order c0 with
    | none => (none, best)
    | some ht =>
      if best = some .missing ∧ ht ≠ .missing then (c0, best)
      else if unifyTwoOpt (some ht) best = best then (none, best)
      else (c0, best)

/-- A registry with no places: used to instantiate theorems whose geo
hypotheses say the probed strings are not known place names. -/
def regEmpty : GeoNames :=
  { country := "australia"
    admin1 := fun _ => ""
    admin2 := fun _ => ""
    names := fun _ => none
    alternates := fun _ => none }

/-- A small registry containing the place "State of New South Wales"
(normalised `stateofnewsouthwales`), whose admin-1 code `01` names
`newsouthwales` and whose admin-2 code is empty. -/
def regNSW : GeoNames :=
  { country := "australia"
    admin1 := fun a => if a = "01" then "newsouthwales" else ""
    admin2 := fun _ => ""
    names := fun s => if s = "stateofnewsouthwales" then some ("01", "") else none
    alternates := fun _ => none }

/-- No recognised rate suffix ends the string. -/
def noRateSuffix (l : List Char) : Prop :=
  ∀ suff ∈ rateSuffixes, suff.1.isSuffixOf l = false

instance : DecidablePred noRateSuffix := fun _ =>
  inferInstanceAs (Decidable (∀ _ ∈ _, _))


/-! ## Basic lemmas about the string primitives -/

theorem isPyWS_of_isDigit {c : Char} (h : c.isDigit = true) : isPyWS c = false := by
  by_contra hws
  rw [Bool.not_eq_false] at hws
  simp only [isPyWS, Bool.or_eq_true, decide_eq_true_eq] at hws
  rcases hws with ((((h1 | h1) | h1) | h1) | h1) | h1 <;> subst h1 <;>
    exact absurd h (by decide)

theorem dropWhile_all {p : Char → Bool} {a : List Char} (l : List Char)
    (h : ∀ c ∈ a, p c = true) : (a ++ l).dropWhile p = l.dropWhile p := by
  induction a with
  | nil => rfl
  | cons x xs ih =>
    simp only [List.cons_append, List.dropWhile_cons, h x (by simp), if_true]
    exact ih (fun c hc => h c (by simp [hc]))

theorem dropWhile_head_false {p : Char → Bool} {x : Char} {xs : List Char}
    (h : p x = false) : (x :: xs).dropWhile p = x :: xs := by
  simp [List.dropWhile_cons, h]

theorem dropWhile_eq_self_of_all {p : Char → Bool} {l : List Char}
    (h : ∀ c ∈ l, p c = false) : l.dropWhile p = l := by
  cases l with
  | nil => rfl
  | cons x xs => exact dropWhile_head_false (h x (by simp))

/-- Strings without Python whitespace are unchanged by stripping. -/
theorem trimWS_eq_self {l : List Char} (h : ∀ c ∈ l, isPyWS c = false) :
    trimWS l = l := by
  unfold trimWS
  rw [dropWhile_eq_self_of_all h,
      dropWhile_eq_self_of_all (fun c hc => h c (List.mem_reverse.mp hc)),
      List.reverse_reverse]

/-- Stripping removes exactly a whitespace prefix and suffix around a
part whose first and last characters are not whitespace. -/
theorem trimWS_sandwich {a m b : List Char}
    (ha : ∀ c ∈ a, isPyWS c = true) (hb : ∀ c ∈ b, isPyWS c = true)
    {x y : Char} {xs ys : List Char}
    (hm1 : m = x :: xs) (hx : isPyWS x = false)
    (hm2 : m.reverse = y :: ys) (hy : isPyWS y = false) :
    trimWS (a ++ m ++ b) = m := by
  unfold trimWS
  rw [List.append_assoc, dropWhile_all (m ++ b) ha]
  have h1 : List.dropWhile isPyWS (m ++ b) = m ++ b := by
    rw [hm1, List.cons_append]
    exact dropWhile_head_false hx
  rw [h1, List.reverse_append,
      dropWhile_all m.reverse (fun c hc => hb c (List.mem_reverse.mp hc)), hm2,
      dropWhile_head_false hy, ← hm2, List.reverse_reverse]

/-- Every list splits as whitespace, its stripped core, and whitespace. -/
theorem trimWS_decomp (l : List Char) :
    ∃ a b, l = a ++ trimWS l ++ b ∧
      (∀ c ∈ a, isPyWS c = true) ∧ (∀ c ∈ b, isPyWS c = true) := by
  refine ⟨l.takeWhile isPyWS,
    (((l.dropWhile isPyWS).reverse.takeWhile isPyWS)).reverse, ?_,
    fun c hc => List.mem_takeWhile_imp hc,
    fun c hc => List.mem_takeWhile_imp (List.mem_reverse.mp hc)⟩
  have h3 : l.dropWhile isPyWS =
      trimWS l ++ ((l.dropWhile isPyWS).reverse.takeWhile isPyWS).reverse := by
    unfold trimWS
    rw [← List.reverse_append, List.takeWhile_append_dropWhile,
        List.reverse_reverse]
  calc l = l.takeWhile isPyWS ++ l.dropWhile isPyWS :=
        (List.takeWhile_append_dropWhile isPyWS l).symm
    _ = _ := by
        conv_lhs => rw [h3]
        rw [← List.append_assoc]

/-! ## Lemmas about digit strings -/

theorem digitsGo_append (a b : List Char) (acc : Nat) :
    digitsGo (a ++ b) acc =
      match digitsGo a acc with
      | some m => digitsGo b m
      | none => none := by
  induction a generalizing acc with
  | nil => simp [digitsGo]
  | cons x xs ih =>
    cases hx : x.isDigit with
    | true =>
      simp only [List.cons_append, digitsGo, hx, if_true]
      exact ih _
    | false => simp [List.cons_append, digitsGo, hx]

theorem digitsGo_isDigit {l : List Char} {acc m : Nat}
    (h : digitsGo l acc = some m) : ∀ c ∈ l, c.isDigit = true := by
  induction l generalizing acc with
  | nil => simp
  | cons x xs ih =>
    simp only [digitsGo] at h
    by_cases hx : x.isDigit
    · rw [if_pos hx] at h
      intro c hc
      rcases List.mem_cons.mp hc with rfl | hc
      · exact hx
      · exact ih h c hc
    · rw [if_neg hx] at h
      exact absurd h (by simp)

theorem digitsVal_isDigit {l : List Char} {m : Nat}
    (h : digitsVal l = some m) : l ≠ [] ∧ ∀ c ∈ l, c.isDigit = true := by
  cases l with
  | nil => exact absurd h (by simp [digitsVal])
  | cons x xs =>
    refine ⟨by simp, ?_⟩
    exact digitsGo_isDigit (h := h)

theorem digitsVal_eq_go {l : List Char} (h : l ≠ []) :
    digitsVal l = digitsGo l 0 := by
  cases l with
  | nil => exact absurd rfl h
  | cons x xs => rfl

/-- A leading block of zeros does not change the value read. -/
theorem digitsGo_zeros (z : Nat) (l : List Char) :
    digitsGo (List.replicate z '0' ++ l) 0 = digitsGo l 0 := by
  induction z with
  | zero => rfl
  | succ n ih => simpa [List.replicate_succ, digitsGo] using ih

/-! ## Correctness of the decimal rendering -/

theorem natDigit_isDigit {n : Nat} (h : n < 10) : (natDigit n).isDigit = true := by
  interval_cases n <;> decide

theorem natDigit_toNat {n : Nat} (h : n < 10) : (natDigit n).toNat = 48 + n := by
  interval_cases n <;> decide

/-- Main rendering invariant: for adequate fuel, the rendered digits are
nonempty, all digits, and read back to the rendered number. -/
theorem renderNatAux_spec (fuel : Nat) :
    ∀ n, n < 10 ^ (fuel + 1) →
      renderNatAux (fuel + 1) n ≠ [] ∧
      (∀ c ∈ renderNatAux (fuel + 1) n, c.isDigit = true) ∧
      ∀ acc, digitsGo (renderNatAux (fuel + 1) n) acc =
        some (acc * 10 ^ (renderNatAux (fuel + 1) n).length + n) := by
  induction fuel with
  | zero =>
    intro n hn
    have h10 : n < 10 := by simpa using hn
    refine ⟨by simp [renderNatAux, h10], ?_, ?_⟩
    · intro c hc
      simp only [renderNatAux, if_pos h10, List.mem_singleton] at hc
      subst hc
      exact natDigit_isDigit h10
    · intro acc
      simp [renderNatAux, if_pos h10, digitsGo, natDigit_isDigit h10,
            natDigit_toNat h10]
      ring
  | succ fuel ih =>
    intro n hn
    by_cases h10 : n < 10
    · refine ⟨by simp [renderNatAux, h10], ?_, ?_⟩
      · intro c hc
        simp only [renderNatAux, if_pos h10, List.mem_singleton] at hc
        subst hc
        exact natDigit_isDigit h10
      · intro acc
        simp [renderNatAux, if_pos h10, digitsGo, natDigit_isDigit h10,
              natDigit_toNat h10]
        ring
    · have hdiv : n / 10 < 10 ^ (fuel + 1) := by
        rw [Nat.div_lt_iff_lt_mul (by norm_num)]
        calc n < 10 ^ (fuel + 1 + 1) := hn
          _ = 10 ^ (fuel + 1) * 10 := by ring
      obtain ⟨hne, hdig, hval⟩ := ih (n / 10) hdiv
      have hmod : n % 10 < 10 := Nat.mod_lt _ (by norm_num)
      have hunf : renderNatAux (fuel + 1 + 1) n =
          renderNatAux (fuel + 1) (n / 10) ++ [natDigit (n % 10)] := by
        simp [renderNatAux, h10]
      refine ⟨by simp [hunf], ?_, ?_⟩
      · intro c hc
        rw [hunf, List.mem_append, List.mem_singleton] at hc
        rcases hc with hc | rfl
        · exact hdig c hc
        · exact natDigit_isDigit hmod
      · intro acc
        rw [hunf, digitsGo_append, hval acc]
        simp only [digitsGo, natDigit_isDigit hmod, if_true,
                   natDigit_toNat hmod, List.length_append,
                   List.length_singleton]
        congr 1
        have : 48 + n % 10 - 48 = n % 10 := by omega
        rw [this, pow_succ]
        have hnm : n = 10 * (n / 10) + n % 10 := (Nat.div_add_mod n 10).symm
        ring_nf
        omega

theorem lt_ten_pow (n : Nat) : n < 10 ^ (n + 1) := by
  calc n < 2 ^ n := Nat.lt_two_pow n
    _ ≤ 10 ^ n := Nat.pow_le_pow_left (by norm_num) n
    _ ≤ 10 ^ (n + 1) := Nat.pow_le_pow_right (by norm_num) (Nat.le_succ n)

theorem renderNat_ne_nil (n : Nat) : renderNat n ≠ [] :=
  (renderNatAux_spec n n (lt_ten_pow n)).1

theorem renderNat_isDigit {n : Nat} : ∀ c ∈ renderNat n, c.isDigit = true :=
  (renderNatAux_spec n n (lt_ten_pow n)).2.1

theorem digitsGo_renderNat (n : Nat) (acc : Nat) :
    digitsGo (renderNat n) acc = some (acc * 10 ^ (renderNat n).length + n) :=
  (renderNatAux_spec n n (lt_ten_pow n)).2.2 acc

theorem digitsVal_renderNat (n : Nat) : digitsVal (renderNat n) = some n := by
  rw [digitsVal_eq_go (renderNat_ne_nil n), digitsGo_renderNat]
  simp

/-- Rendering is fuel-insensitive given adequate fuel. -/
theorem renderNatAux_irrel (n : Nat) : ∀ f g, n < 10 ^ (f + 1) → n < 10 ^ (g + 1) →
    renderNatAux (f + 1) n = renderNatAux (g + 1) n := by
  induction n using Nat.strong_induction_on with
  | _ n ih =>
    intro f g hf hg
    by_cases h10 : n < 10
    · cases f <;> cases g <;> simp [renderNatAux, h10]
    · have hnten : 10 ≤ n := Nat.le_of_not_lt h10
      obtain ⟨f', rfl⟩ : ∃ f', f = f' + 1 := by
        cases f with
        | zero => exact absurd hf (by simp; omega)
        | succ f' => exact ⟨f', rfl⟩
      obtain ⟨g', rfl⟩ : ∃ g', g = g' + 1 := by
        cases g with
        | zero => exact absurd hg (by simp; omega)
        | succ g' => exact ⟨g', rfl⟩
      have hdivf : n / 10 < 10 ^ (f' + 1) := by
        rw [Nat.div_lt_iff_lt_mul (by norm_num)]
        calc n < 10 ^ (f' + 1 + 1) := hf
          _ = 10 ^ (f' + 1) * 10 := by ring
      have hdivg : n / 10 < 10 ^ (g' + 1) := by
        rw [Nat.div_lt_iff_lt_mul (by norm_num)]
        calc n < 10 ^ (g' + 1 + 1) := hg
          _ = 10 ^ (g' + 1) * 10 := by ring
      have hdlt : n / 10 < n := Nat.div_lt_self (by omega) (by norm_num)
      conv_lhs => rw [renderNatAux]
      conv_rhs => rw [renderNatAux]
      rw [if_neg h10, if_neg h10, ih (n / 10) hdlt f' g' hdivf hdivg]

theorem isDigit_ne_sign {c : Char} (h : c.isDigit = true) :
    c ≠ '+' ∧ c ≠ '-' := by
  constructor <;> rintro rfl <;> exact absurd h (by decide)

theorem parseSign_digits {l : List Char} (h : ∀ c ∈ l, c.isDigit = true) :
    parseSign l = (false, l) := by
  cases l with
  | nil => rfl
  | cons c cs =>
    obtain ⟨h1, h2⟩ := isDigit_ne_sign (h c (by simp))
    simp [parseSign, h1, h2]

/-- `int()` of a pure digit string. -/
theorem pyIntL_of_digits {l : List Char} {n : Nat}
    (hval : digitsVal l = some n) : pyIntL l = some (n : Int) := by
  obtain ⟨hne, hdig⟩ := digitsVal_isDigit hval
  have htr : trimWS l = l :=
    trimWS_eq_self (fun c hc => isPyWS_of_isDigit (hdig c hc))
  simp [pyIntL, htr, parseSign_digits hdig, hval]

/-- Round trip: Python `int(str(i)) == i`. -/
theorem pyIntL_renderInt (i : Int) : pyIntL (renderInt i) = some i := by
  rcases le_or_lt 0 i with hpos | hneg
  · have h0 : signPrefix i = [] := by
      simp [signPrefix, not_lt.mpr hpos]
    rw [renderInt, h0, List.nil_append]
    rw [pyIntL_of_digits (digitsVal_renderNat i.natAbs)]
    congr 1
    omega
  · have h0 : signPrefix i = ['-'] := by simp [signPrefix, hneg]
    rw [renderInt, h0]
    have hdig := @renderNat_isDigit i.natAbs
    have htr : trimWS ('-' :: renderNat i.natAbs) = '-' :: renderNat i.natAbs := by
      refine trimWS_eq_self ?_
      intro c hc
      rcases List.mem_cons.mp hc with rfl | hc
      · decide
      · exact isPyWS_of_isDigit (hdig c hc)
    have hps : parseSign ('-' :: renderNat i.natAbs) =
        (true, renderNat i.natAbs) := by simp [parseSign]
    simp only [pyIntL, List.singleton_append, htr, hps, digitsVal_renderNat,
               Option.map_some]
    have habs : -((i.natAbs : Nat) : Int) = i := by omega
    simpa using habs

/-- Rendering a tenfold: one more trailing zero. -/
theorem renderNat_mul10 {n : Nat} (h : 1 ≤ n) :
    renderNat (10 * n) = renderNat n ++ ['0'] := by
  have h10 : ¬(10 * n < 10) := by omega
  have heq : renderNat (10 * n) = renderNatAux (10 * n) (10 * n / 10) ++
      [natDigit (10 * n % 10)] := by
    rw [renderNat]
    conv_lhs => rw [renderNatAux]
    rw [if_neg h10]
  rw [heq, Nat.mul_div_cancel_left n (by norm_num),
      Nat.mul_mod_right 10 n]
  have hfl : renderNatAux (10 * n) n = renderNat n := by
    obtain ⟨f', hf'⟩ : ∃ f', 10 * n = f' + 1 := ⟨10 * n - 1, by omega⟩
    rw [hf', renderNat]
    exact renderNatAux_irrel n f' n
      (by calc n < 10 * n := by omega
            _ ≤ 10 ^ (10 * n) := Nat.lt_pow_self (by norm_num) (10 * n) |>.le
            _ ≤ 10 ^ (f' + 1) := by rw [← hf']
          )
      (lt_ten_pow n)
  rw [hfl]
  rfl

/-! ## Lemmas about `breakAtP` and float parsing -/

theorem breakAtP_none {p : Char → Bool} {l : List Char}
    (h : ∀ c ∈ l, p c = false) : breakAtP p l = (l, none) := by
  induction l with
  | nil => rfl
  | cons x xs ih =>
    have hx : p x = false := h x (by simp)
    have ihx := ih (fun c hc => h c (by simp [hc]))
    simp [breakAtP, hx, ihx]

theorem breakAtP_found {p : Char → Bool} {a b : List Char} {x : Char}
    (ha : ∀ c ∈ a, p c = false) (hx : p x = true) :
    breakAtP p (a ++ x :: b) = (a, some b) := by
  induction a with
  | nil => simp [breakAtP, hx]
  | cons y ys ih =>
    have hy : p y = false := ha y (by simp)
    have ihy := ih (fun c hc => ha c (by simp [hc]))
    simp [breakAtP, hy, ihy]

theorem digitsVal_none_of_not_digit {l : List Char} {c : Char}
    (hc : c ∈ l) (hnd : c.isDigit = false) : digitsVal l = none := by
  cases hda : digitsVal l with
  | none => rfl
  | some m =>
    obtain ⟨-, hall⟩ := digitsVal_isDigit hda
    rw [hall c hc] at hnd
    exact absurd hnd (by simp)

theorem numSuffix_of_digit {c : Char} (h : c.isDigit = true) :
    numSuffix c = none := by
  have hB : c ≠ 'B' := by rintro rfl; exact absurd h (by decide)
  have hM : c ≠ 'M' := by rintro rfl; exact absurd h (by decide)
  have hk : c ≠ 'k' := by rintro rfl; exact absurd h (by decide)
  simp [numSuffix, hB, hM, hk]

/-- Character classes occurring in a rendered float. -/
theorem renderFlt_chars {m : Int} {k : Nat} :
    ∀ c ∈ renderFlt m k, c.isDigit = true ∨ c = '-' ∨ c = '.' := by
  intro c hc
  unfold renderFlt at hc
  by_cases hk : k = 0
  · rw [if_pos hk, renderInt, List.append_assoc, List.mem_append] at hc
    rcases hc with hc | hc
    · unfold signPrefix at hc
      split at hc <;> simp_all
    · rw [List.mem_append] at hc
      rcases hc with hc | hc
      · exact Or.inl (renderNat_isDigit c hc)
      · simp only [List.mem_cons, List.not_mem_nil, or_false] at hc
        rcases hc with rfl | rfl
        · exact Or.inr (Or.inr rfl)
        · exact Or.inl (by decide)
  · rw [if_neg hk] at hc
    simp only [List.mem_append, List.mem_cons] at hc
    have hpad : ∀ x ∈ List.replicate (k + 1 - (renderNat m.natAbs).length) '0' ++
        renderNat m.natAbs, x.isDigit = true := by
      intro x hx
      rcases List.mem_append.mp hx with hx | hx
      · rw [List.eq_of_mem_replicate hx]; decide
      · exact renderNat_isDigit x hx
    rcases hc with (hc | hc) | hc | hc
    · unfold signPrefix at hc
      split at hc <;> simp_all
    · exact Or.inl (hpad c (List.mem_of_mem_take hc))
    · exact Or.inr (Or.inr hc)
    · exact Or.inl (hpad c (List.mem_of_mem_drop hc))

theorem char_not_ws_of_digit_dot {c : Char}
    (h : c.isDigit = true ∨ c = '.') : isPyWS c = false := by
  rcases h with h | rfl
  · exact isPyWS_of_isDigit h
  · decide

theorem toLower_mem_of_mem {c : Char} {l : List Char} (h : c ∈ l)
    (hc : c.toLower = c) : c ∈ l.map Char.toLower := by
  rw [← hc]
  exact List.mem_map_of_mem Char.toLower h

/-- A float body whose characters are digits and a dot is not one of the
special words `inf` / `infinity` / `nan`. -/
theorem low_not_special {body : List Char} (hdot : '.' ∈ body) :
    ¬(body.map Char.toLower = "inf".toList ∨
      body.map Char.toLower = "infinity".toList) ∧
    body.map Char.toLower ≠ "nan".toList := by
  have hmem : '.' ∈ body.map Char.toLower := toLower_mem_of_mem hdot (by decide)
  refine ⟨?_, ?_⟩
  · rintro (h | h) <;> rw [h] at hmem <;> exact absurd hmem (by decide)
  · intro h
    rw [h] at hmem
    exact absurd hmem (by decide)

/-- `pyFloatL` on a signed digits-dot-digits body with known
`pyFloatBody` outcome. -/
theorem pyFloatL_signed_body {i : Int} {body : List Char} {v k : Nat}
    (hbody : ∀ c ∈ body, c.isDigit = true ∨ c = '.')
    (hne : body ≠ []) (hdot : '.' ∈ body)
    (hpb : pyFloatBody body = some (v, k)) :
    pyFloatL (signPrefix i ++ body) =
      some (.fin (if i < 0 then -(v : Int) else (v : Int)) k) := by
  obtain ⟨c, r, rfl⟩ : ∃ c r, body = c :: r := by
    cases body with
    | nil => exact absurd rfl hne
    | cons c r => exact ⟨c, r, rfl⟩
  have hcsign : c ≠ '+' ∧ c ≠ '-' := by
    rcases hbody c (by simp) with h | rfl
    · exact isDigit_ne_sign h
    · exact ⟨by decide, by decide⟩
  obtain ⟨hni, hnn⟩ := low_not_special hdot
  by_cases hneg : i < 0
  · have h0 : signPrefix i = ['-'] := by simp [signPrefix, hneg]
    have htr : trimWS ('-' :: c :: r) = '-' :: c :: r := by
      refine trimWS_eq_self ?_
      intro x hx
      rcases List.mem_cons.mp hx with rfl | hx
      · decide
      · exact char_not_ws_of_digit_dot (hbody x hx)
    have hps : parseSign ('-' :: c :: r) = (true, c :: r) := by
      simp [parseSign]
    rw [h0, List.singleton_append]
    simp only [pyFloatL, htr, hps]
    rw [if_neg hni, if_neg hnn, hpb]
    rw [if_pos hneg]
    rfl
  · have h0 : signPrefix i = [] := by simp [signPrefix, hneg]
    have htr : trimWS (c :: r) = c :: r :=
      trimWS_eq_self (fun x hx => char_not_ws_of_digit_dot (hbody x hx))
    have hps : parseSign (c :: r) = (false, c :: r) := by
      simp [parseSign, hcsign.1, hcsign.2]
    rw [h0, List.nil_append]
    simp only [pyFloatL, htr, hps]
    rw [if_neg hni, if_neg hnn, hpb]
    rw [if_neg hneg]
    rfl

/-- `pyFloatBody` of `A ++ '.' :: B` for all-digit `A`, `B`. -/
theorem pyFloatBody_digits_dot {A B : List Char} {v : Nat}
    (hA : ∀ c ∈ A, c.isDigit = true) (hB : ∀ c ∈ B, c.isDigit = true)
    (hAne : A ≠ []) (hval : digitsGo (A ++ B) 0 = some v) :
    pyFloatBody (A ++ '.' :: B) = some (v, B.length) := by
  have hdig_ne_eE : ∀ c : Char, c.isDigit = true →
      (c = 'e' || c = 'E') = false := by
    intro c h
    have h1 : c ≠ 'e' := by rintro rfl; exact absurd h (by decide)
    have h2 : c ≠ 'E' := by rintro rfl; exact absurd h (by decide)
    simp [h1, h2]
  have hem : breakAtP (fun c => c = 'e' || c = 'E') (A ++ '.' :: B) =
      (A ++ '.' :: B, none) := by
    refine breakAtP_none ?_
    intro x hx
    rcases List.mem_append.mp hx with hx | hx
    · exact hdig_ne_eE x (hA x hx)
    · rcases List.mem_cons.mp hx with rfl | hx
      · decide
      · exact hdig_ne_eE x (hB x hx)
  have hdm : breakAtP (fun c => c = '.') (A ++ '.' :: B) = (A, some B) := by
    refine breakAtP_found ?_ (by decide)
    intro x hx
    have h1 : x ≠ '.' := by
      intro hdoteq
      subst hdoteq
      exact absurd (hA _ hx) (by decide)
    simp [h1]
  simp only [pyFloatBody, hem, hdm, Option.getD_some]
  rw [if_neg (by simp [hAne])]
  simp only [digitsValOpt, hval]

/-- Parse-of-render for the float rendering with a nonzero point
position: exact round trip. -/
theorem pyFloatL_renderFlt_pos (m : Int) {k : Nat} (hk : k ≠ 0) :
    pyFloatL (renderFlt m k) = some (.fin m k) := by
  have hla : 1 ≤ (renderNat m.natAbs).length :=
    List.length_pos.mpr (renderNat_ne_nil _)
  set ds := renderNat m.natAbs with hds
  set pad := List.replicate (k + 1 - ds.length) '0' ++ ds with hpaddef
  have hpad : ∀ x ∈ pad, x.isDigit = true := by
    intro x hx
    rcases List.mem_append.mp hx with hx | hx
    · rw [List.eq_of_mem_replicate hx]; decide
    · exact renderNat_isDigit x hx
  have hL : k + 1 ≤ pad.length := by
    rw [hpaddef, List.length_append, List.length_replicate]
    omega
  have hrender : renderFlt m k =
      signPrefix m ++ (pad.take (pad.length - k) ++ '.' :: pad.drop (pad.length - k)) := by
    simp only [renderFlt, if_neg hk]
    rw [List.append_assoc]
  have htke : pad.take (pad.length - k) ++ pad.drop (pad.length - k) = pad :=
    List.take_append_drop _ pad
  have hAne : pad.take (pad.length - k) ≠ [] := by
    have : (pad.take (pad.length - k)).length = pad.length - k := by
      rw [List.length_take]
      omega
    intro hcon
    rw [hcon] at this
    simp at this
    omega
  have hval : digitsGo (pad.take (pad.length - k) ++ pad.drop (pad.length - k)) 0 =
      some m.natAbs := by
    rw [htke, hpaddef, digitsGo_zeros, hds, digitsGo_renderNat]
    simp
  have hBlen : (pad.drop (pad.length - k)).length = k := by
    rw [List.length_drop]
    omega
  rw [hrender,
      pyFloatL_signed_body
        (fun c hc => by
          rcases List.mem_append.mp hc with hc | hc
          · exact Or.inl (hpad c (List.mem_of_mem_take hc))
          · rcases List.mem_cons.mp hc with rfl | hc
            · exact Or.inr rfl
            · exact Or.inl (hpad c (List.mem_of_mem_drop hc)))
        (by simp [hAne])
        (by simp)
        (pyFloatBody_digits_dot
          (fun c hc => hpad c (List.mem_of_mem_take hc))
          (fun c hc => hpad c (List.mem_of_mem_drop hc))
          hAne hval)]
  rw [hBlen]
  congr 1
  congr 1
  by_cases hneg : m < 0
  · rw [if_pos hneg]; omega
  · rw [if_neg hneg]; omega

/-- Parse-of-render for integral floats: `"m.0"` reads back as the pair
`(10·m, 1)` — a different pair denoting the same value. -/
theorem pyFloatL_renderFlt_zero (m : Int) :
    pyFloatL (renderFlt m 0) = some (.fin (10 * m) 1) := by
  have hrender : renderFlt m 0 =
      signPrefix m ++ (renderNat m.natAbs ++ '.' :: ['0']) := by
    simp [renderFlt, renderInt]
  have hval : digitsGo (renderNat m.natAbs ++ ['0']) 0 = some (10 * m.natAbs) := by
    rw [digitsGo_append, digitsGo_renderNat]
    simp [digitsGo]
  rw [hrender,
      pyFloatL_signed_body
        (fun c hc => by
          rcases List.mem_append.mp hc with hc | hc
          · exact Or.inl (renderNat_isDigit c hc)
          · rcases List.mem_cons.mp hc with rfl | hc
            · exact Or.inr rfl
            · rcases List.mem_singleton.mp hc with rfl
              exact Or.inl (by decide))
        (by simp [renderNat_ne_nil])
        (by simp)
        (pyFloatBody_digits_dot renderNat_isDigit
          (fun c hc => by rcases List.mem_singleton.mp hc with rfl; decide)
          (renderNat_ne_nil _) hval)]
  congr 2
  by_cases hneg : m < 0
  · rw [if_pos hneg]; omega
  · rw [if_neg hneg]; omega

/-- The two renderings of an integral float value coincide:
`str(10·m / 10¹) = str(m / 10⁰)`. -/
theorem renderFlt_tenfold (m : Int) : renderFlt (10 * m) 1 = renderFlt m 0 := by
  by_cases hm : m = 0
  · subst hm
    decide
  · have ha : 1 ≤ m.natAbs := by omega
    have habs : (10 * m).natAbs = 10 * m.natAbs := by
      omega
    have hds : renderNat (10 * m).natAbs = renderNat m.natAbs ++ ['0'] := by
      rw [habs, renderNat_mul10 ha]
    have hsign : signPrefix (10 * m) = signPrefix m := by
      unfold signPrefix
      have : 10 * m < 0 ↔ m < 0 := by omega
      simp [this]
    have hla : 1 ≤ (renderNat m.natAbs).length :=
      List.length_pos.mpr (renderNat_ne_nil _)
    have hlhs : renderFlt (10 * m) 1 =
        signPrefix m ++ renderNat m.natAbs ++ '.' :: ['0'] := by
      simp only [renderFlt, if_neg (by norm_num : (1 : Nat) ≠ 0), hds, hsign]
      have hlen : (renderNat m.natAbs ++ ['0']).length =
          (renderNat m.natAbs).length + 1 := by simp
      have hz2 : 1 + 1 - (renderNat m.natAbs ++ ['0']).length = 0 := by
        rw [hlen]; omega
      rw [hz2, List.replicate_zero, List.nil_append, hlen]
      have htk : (renderNat m.natAbs).length + 1 - 1 =
          (renderNat m.natAbs).length := by omega
      rw [htk, List.take_left, List.drop_left]
    have hrhs : renderFlt m 0 =
        signPrefix m ++ renderNat m.natAbs ++ '.' :: ['0'] := by
      simp [renderFlt, renderInt]
    rw [hlhs, hrhs]

/-- Non-whitespace characters survive stripping. -/
theorem mem_trimWS {c : Char} {l : List Char} (hc : c ∈ l)
    (hws : isPyWS c = false) : c ∈ trimWS l := by
  obtain ⟨a, b, hdec, hwa, hwb⟩ := trimWS_decomp l
  rw [hdec] at hc
  rcases List.mem_append.mp hc with hab | hb
  · rcases List.mem_append.mp hab with ha | ht
    · rw [hwa c ha] at hws
      exact absurd hws (by simp)
    · exact ht
  · rw [hwb c hb] at hws
    exact absurd hws (by simp)

/-- Python `int()` rejects any string containing a decimal point. -/
theorem pyIntL_dot_none {l : List Char} (hdot : '.' ∈ l) : pyIntL l = none := by
  have hmem : '.' ∈ trimWS l := mem_trimWS hdot (by decide)
  unfold pyIntL
  cases htr : trimWS l with
  | nil =>
    rw [htr] at hmem
    exact absurd hmem (by simp)
  | cons c r =>
    rw [htr] at hmem
    by_cases hcp : c = '+'
    · have hdr : '.' ∈ r := by
        rcases List.mem_cons.mp hmem with hdc | hdr
        · exact absurd hdc.symm (by subst hcp; decide)
        · exact hdr
      simp [parseSign, hcp, digitsVal_none_of_not_digit hdr (by decide)]
    · by_cases hcm : c = '-'
      · have hdr : '.' ∈ r := by
          rcases List.mem_cons.mp hmem with hdc | hdr
          · exact absurd hdc.symm (by subst hcm; decide)
          · exact hdr
        simp [parseSign, hcp, hcm, digitsVal_none_of_not_digit hdr (by decide)]
      · simp [parseSign, hcp, hcm,
              digitsVal_none_of_not_digit hmem (show ('.').isDigit = false by decide)]

theorem toList_asString (l : List Char) : (l.asString).toList = l := rfl

theorem notCS_of_digit {c : Char} (h : c.isDigit = true) : notCS c = true := by
  have h1 : c ≠ ',' := by rintro rfl; exact absurd h (by decide)
  have h2 : c ≠ ' ' := by rintro rfl; exact absurd h (by decide)
  simp [notCS, h1, h2]

theorem renderInt_chars {i : Int} :
    ∀ c ∈ renderInt i, c.isDigit = true ∨ c = '-' := by
  intro c hc
  rw [renderInt, List.mem_append] at hc
  rcases hc with hc | hc
  · unfold signPrefix at hc
    split at hc <;> simp_all
  · exact Or.inl (renderNat_isDigit c hc)

theorem notCS_of_digit_dash_dot {c : Char}
    (h : c.isDigit = true ∨ c = '-' ∨ c = '.') : notCS c = true := by
  rcases h with h | rfl | rfl
  · exact notCS_of_digit h
  · decide
  · decide

/-- The last character of a rendered integer is a digit. -/
theorem renderInt_getLast (i : Int) :
    ∃ c, (renderInt i).getLast? = some c ∧ c.isDigit = true := by
  have hne := renderNat_ne_nil i.natAbs
  refine ⟨(renderNat i.natAbs).getLast hne, ?_, ?_⟩
  · rw [renderInt, List.getLast?_append, List.getLast?_eq_getLast _ hne]
    rfl
  · exact renderNat_isDigit _ (List.getLast_mem hne)

/-- The last character of a rendered float is a digit. -/
theorem renderFlt_getLast (m : Int) (k : Nat) :
    ∃ c, (renderFlt m k).getLast? = some c ∧ c.isDigit = true := by
  by_cases hk : k = 0
  · subst hk
    refine ⟨'0', ?_, by decide⟩
    rw [renderFlt, if_pos rfl, List.getLast?_append]
    rfl
  · have hL : k + 1 ≤ (List.replicate
        (k + 1 - (renderNat m.natAbs).length) '0' ++ renderNat m.natAbs).length := by
      rw [List.length_append, List.length_replicate]
      have := List.length_pos.mpr (renderNat_ne_nil m.natAbs)
      omega
    set pad := List.replicate (k + 1 - (renderNat m.natAbs).length) '0' ++
      renderNat m.natAbs with hpad
    have hdrop : pad.drop (pad.length - k) ≠ [] := by
      have : (pad.drop (pad.length - k)).length = k := by
        rw [List.length_drop]
        omega
      intro hcon
      rw [hcon] at this
      simp at this
      omega
    have hpadDig : ∀ c ∈ pad, c.isDigit = true := by
      rw [hpad]
      intro x hx
      rcases List.mem_append.mp hx with hx | hx
      · rw [List.eq_of_mem_replicate hx]; decide
      · exact renderNat_isDigit x hx
    refine ⟨(pad.drop (pad.length - k)).getLast hdrop, ?_, ?_⟩
    · simp only [renderFlt, if_neg hk]
      rw [← hpad, List.getLast?_append]
      have h2 : ('.' :: pad.drop (pad.length - k)).getLast? =
          (pad.drop (pad.length - k)).getLast? := by
        rw [show ('.' :: pad.drop (pad.length - k)) =
              ['.'] ++ pad.drop (pad.length - k) from rfl,
            List.getLast?_append, List.getLast?_eq_getLast _ hdrop]
        rfl
      rw [h2, List.getLast?_eq_getLast _ hdrop]
      rfl
    · exact hpadDig _ (List.mem_of_mem_drop (List.getLast_mem hdrop))

/-- `NumberType.convert` of a rendered integer gives back that integer. -/
theorem numberConvertL_renderInt (n : Int) :
    numberConvertL (renderInt n) = some (.int n) := by
  have hfil : (renderInt n).filter notCS = renderInt n :=
    List.filter_eq_self.mpr (fun c hc =>
      notCS_of_digit_dash_dot (by
        rcases renderInt_chars c hc with h | h
        · exact Or.inl h
        · exact Or.inr (Or.inl h)))
  obtain ⟨c, hlast, hdig⟩ := renderInt_getLast n
  have hstrip : numStrip (renderInt n) = (1, renderInt n) := by
    unfold numStrip
    by_cases hlen : 1 < (renderInt n).length
    · rw [if_pos hlen, hlast]
      show (match numSuffix c with
            | some m => (m, (renderInt n).dropLast)
            | none => (1, renderInt n)) = (1, renderInt n)
      rw [numSuffix_of_digit hdig]
    · rw [if_neg hlen]
  simp only [numberConvertL]
  rw [hfil, hstrip]
  simp only [pyIntL_renderInt, one_mul]

/-- `NumberType.convert` of a rendered float reads back a pair denoting
the same value, rendering to the same string. -/
theorem numberConvertL_renderFlt (m : Int) (k : Nat) :
    numberConvertL (renderFlt m k) =
      some (.flt (if k = 0 then 10 * m else m) (if k = 0 then 1 else k)) := by
  have hfil : (renderFlt m k).filter notCS = renderFlt m k :=
    List.filter_eq_self.mpr (fun c hc =>
      notCS_of_digit_dash_dot (renderFlt_chars c hc))
  have hdot : '.' ∈ renderFlt m k := by
    unfold renderFlt
    by_cases hk : k = 0
    · rw [if_pos hk]
      simp
    · rw [if_neg hk]
      simp
  obtain ⟨c, hlast, hdig⟩ := renderFlt_getLast m k
  have hint := pyIntL_dot_none hdot
  have hstrip : numStrip (renderFlt m k) = (1, renderFlt m k) := by
    unfold numStrip
    by_cases hlen : 1 < (renderFlt m k).length
    · rw [if_pos hlen, hlast]
      show (match numSuffix c with
            | some m1 => (m1, (renderFlt m k).dropLast)
            | none => (1, renderFlt m k)) = (1, renderFlt m k)
      rw [numSuffix_of_digit hdig]
    · rw [if_neg hlen]
  simp only [numberConvertL]
  rw [hfil, hstrip]
  by_cases hk : k = 0
  · subst hk
    simp [hint, pyFloatL_renderFlt_zero m]
  · simp [hint, pyFloatL_renderFlt_pos m hk, hk]

/-- Convert-then-render stability on every value `NumberType.convert` can
produce: re-converting the rendered string succeeds and renders
identically. -/
theorem numberConvert_stable (v : PyNum) :
    ∃ v2, numberConvertL (renderPyNum v) = some v2 ∧
      renderPyNum v2 = renderPyNum v := by
  cases v with
  | int n => exact ⟨.int n, numberConvertL_renderInt n, rfl⟩
  | flt m k =>
    by_cases hk : k = 0
    · subst hk
      refine ⟨.flt (10 * m) 1, ?_, ?_⟩
      · rw [show renderPyNum (.flt m 0) = renderFlt m 0 from rfl,
            numberConvertL_renderFlt m 0]
        simp
      · show renderFlt (10 * m) 1 = renderFlt m 0
        exact renderFlt_tenfold m
    · refine ⟨.flt m k, ?_, rfl⟩
      rw [show renderPyNum (.flt m k) = renderFlt m k from rfl,
          numberConvertL_renderFlt m k]
      simp [hk]
  | inf neg =>
    cases neg with
    | false => exact ⟨.inf false, by decide, rfl⟩
    | true => exact ⟨.inf true, by decide, rfl⟩
  | nan => exact ⟨.nan, by decide, rfl⟩

theorem numSuffix_eq_none {c : Char} (h1 : c ≠ 'B') (h2 : c ≠ 'M')
    (h3 : c ≠ 'k') : numSuffix c = none := by
  simp [numSuffix, h1, h2, h3]

theorem numSuffix_of_ws {c : Char} (h : isPyWS c = true) : numSuffix c = none := by
  simp only [isPyWS, Bool.or_eq_true, decide_eq_true_eq] at h
  rcases h with ((((rfl | rfl) | rfl) | rfl) | rfl) | rfl <;> decide

theorem numStrip_of_no_suffix {l : List Char}
    (h : ∀ c ∈ l, numSuffix c = none) : numStrip l = (1, l) := by
  unfold numStrip
  by_cases hlen : 1 < l.length
  · rw [if_pos hlen]
    cases hlast : l.getLast? with
    | none => rfl
    | some c =>
      have hc := h c (List.mem_of_mem_getLast? hlast)
      show (match numSuffix c with
            | some m => (m, l.dropLast)
            | none => (1, l)) = (1, l)
      rw [hc]
  · rw [if_neg hlen]

theorem notCS_of_trim_core {c : Char}
    (h : c.isDigit = true ∨ c = '+' ∨ c = '-') : notCS c = true := by
  rcases h with h | rfl | rfl
  · exact notCS_of_digit h
  · decide
  · decide

theorem parseSign_plus (r : List Char) : parseSign ('+' :: r) = (false, r) := by
  simp [parseSign]

theorem parseSign_minus (r : List Char) : parseSign ('-' :: r) = (true, r) := by
  simp [parseSign]

theorem parseSign_other {c : Char} (r : List Char) (h1 : c ≠ '+')
    (h2 : c ≠ '-') : parseSign (c :: r) = (false, c :: r) := by
  simp [parseSign, h1, h2]

theorem pyIntL_of_trim {l t : List Char} (htr : trimWS l = t) :
    pyIntL l = (digitsVal (parseSign t).2).map
      (fun v => if (parseSign t).1 then -(v : Int) else (v : Int)) := by
  unfold pyIntL
  rw [htr]

theorem pyIntL_trim_plus {l r : List Char} (htr : trimWS l = '+' :: r) :
    pyIntL l = (digitsVal r).map (fun v => (v : Int)) := by
  rw [pyIntL_of_trim htr, parseSign_plus]
  rfl

theorem pyIntL_trim_minus {l r : List Char} (htr : trimWS l = '-' :: r) :
    pyIntL l = (digitsVal r).map (fun v => -(v : Int)) := by
  rw [pyIntL_of_trim htr, parseSign_minus]
  rfl

theorem pyIntL_trim_other {l : List Char} {c : Char} {r : List Char}
    (htr : trimWS l = c :: r) (h1 : c ≠ '+') (h2 : c ≠ '-') :
    pyIntL l = (digitsVal (c :: r)).map (fun v => (v : Int)) := by
  rw [pyIntL_of_trim htr, parseSign_other r h1 h2]
  rfl

/-- Structure of a successful Python `int()` parse: the stripped string
is an optional sign followed by a nonempty digit block, and the parse is
determined by that core. -/
theorem pyIntL_structure {l : List Char} {n : Int} (h : pyIntL l = some n) :
    ∃ sign ds, (sign = ([] : List Char) ∨ sign = ['+'] ∨ sign = ['-']) ∧
      trimWS l = sign ++ ds ∧ ds ≠ [] ∧ (∀ c ∈ ds, c.isDigit = true) := by
  cases htr : trimWS l with
  | nil =>
    rw [pyIntL_of_trim htr] at h
    exact absurd h (by simp [parseSign, digitsVal])
  | cons c r =>
    by_cases hcp : c = '+'
    · subst hcp
      rw [pyIntL_trim_plus htr] at h
      cases hdv : digitsVal r with
      | none => rw [hdv] at h; exact absurd h (by simp)
      | some v =>
        obtain ⟨hne, hdig⟩ := digitsVal_isDigit hdv
        exact ⟨['+'], r, Or.inr (Or.inl rfl), rfl, hne, hdig⟩
    · by_cases hcm : c = '-'
      · subst hcm
        rw [pyIntL_trim_minus htr] at h
        cases hdv : digitsVal r with
        | none => rw [hdv] at h; exact absurd h (by simp)
        | some v =>
          obtain ⟨hne, hdig⟩ := digitsVal_isDigit hdv
          exact ⟨['-'], r, Or.inr (Or.inr rfl), rfl, hne, hdig⟩
      · rw [pyIntL_trim_other htr hcp hcm] at h
        cases hdv : digitsVal (c :: r) with
        | none => rw [hdv] at h; exact absurd h (by simp)
        | some v =>
          obtain ⟨hne, hdig⟩ := digitsVal_isDigit hdv
          exact ⟨[], c :: r, Or.inl rfl, rfl, hne, hdig⟩

/-- Removing commas and spaces does not change a successful `int()`
parse, and the translated string carries no scale suffix. -/
theorem pyIntL_filter {l : List Char} {n : Int} (h : pyIntL l = some n) :
    pyIntL (l.filter notCS) = some n ∧
      ∀ c ∈ l.filter notCS, numSuffix c = none := by
  obtain ⟨sign, ds, hsign, htr, hdsne, hdsdig⟩ := pyIntL_structure h
  obtain ⟨a, b, hdec, hwa, hwb⟩ := trimWS_decomp l
  rw [htr] at hdec
  have hsignchar : ∀ c ∈ sign, c = '+' ∨ c = '-' := by
    intro c hc
    rcases hsign with rfl | rfl | rfl
    · exact absurd hc (by simp)
    · exact Or.inl (List.mem_singleton.mp hc)
    · exact Or.inr (List.mem_singleton.mp hc)
  have hcore : ∀ c ∈ sign ++ ds, notCS c = true := by
    intro c hc
    rcases List.mem_append.mp hc with hc | hc
    · rcases hsignchar c hc with rfl | rfl <;> decide
    · exact notCS_of_digit (hdsdig c hc)
  have hfilcore : (sign ++ ds).filter notCS = sign ++ ds :=
    List.filter_eq_self.mpr hcore
  have hfil : l.filter notCS =
      a.filter notCS ++ (sign ++ ds) ++ b.filter notCS := by
    rw [hdec, List.filter_append, List.filter_append, hfilcore]
  obtain ⟨x, xs, hx, hxws⟩ :
      ∃ x xs, sign ++ ds = x :: xs ∧ isPyWS x = false := by
    rcases hsign with rfl | rfl | rfl
    · rw [List.nil_append]
      cases ds with
      | nil => exact absurd rfl hdsne
      | cons d dr =>
        exact ⟨d, dr, rfl, isPyWS_of_isDigit (hdsdig d (by simp))⟩
    · exact ⟨'+', ds, rfl, by decide⟩
    · exact ⟨'-', ds, rfl, by decide⟩
  obtain ⟨y, ys, hy, hyws⟩ :
      ∃ y ys, (sign ++ ds).reverse = y :: ys ∧ isPyWS y = false := by
    cases hrev : ds.reverse with
    | nil =>
      have : ds = [] := by
        have := congrArg List.reverse hrev
        simpa using this
      exact absurd this hdsne
    | cons d dr =>
      have hdmem : d ∈ ds := by
        have : d ∈ ds.reverse := by rw [hrev]; simp
        exact List.mem_reverse.mp this
      exact ⟨d, dr ++ sign.reverse, by rw [List.reverse_append, hrev]; rfl,
        isPyWS_of_isDigit (hdsdig d hdmem)⟩
  have htrfil : trimWS (l.filter notCS) = sign ++ ds := by
    rw [hfil]
    exact trimWS_sandwich
      (fun c hc => hwa c (List.mem_of_mem_filter hc))
      (fun c hc => hwb c (List.mem_of_mem_filter hc))
      hx hxws hy hyws
  constructor
  · rw [pyIntL_of_trim htrfil, ← pyIntL_of_trim htr]
    exact h
  · intro c hc
    rw [hfil] at hc
    rcases List.mem_append.mp hc with hc | hc
    · rcases List.mem_append.mp hc with hc | hc
      · exact numSuffix_of_ws (hwa c (List.mem_of_mem_filter hc))
      · rcases List.mem_append.mp hc with hc | hc
        · rcases hsignchar c hc with rfl | rfl <;> decide
        · exact numSuffix_of_digit (hdsdig c hc)
    · exact numSuffix_of_ws (hwb c (List.mem_of_mem_filter hc))

/-- Every string accepted by Python `int()` is accepted by
`NumberType.convert` (with multiplier 1). -/
theorem numberConvertL_of_pyIntL {l : List Char} {n : Int}
    (h : pyIntL l = some n) : numberConvertL l = some (.int n) := by
  obtain ⟨hint, hsuf⟩ := pyIntL_filter h
  simp only [numberConvertL]
  rw [numStrip_of_no_suffix hsuf]
  rw [show ((1 : Int), l.filter notCS).2 = l.filter notCS from rfl, hint]
  simp

/-! ## Lemmas about `RateType.convert` -/

theorem take_append_sub (t v : List Char) :
    (t ++ v).take ((t ++ v).length - v.length) = t := by
  rw [List.length_append]
  have h : t.length + v.length - v.length = t.length := by omega
  rw [h, List.take_left]

theorem rateStrip_no_suffix {l : List Char} (hno : noRateSuffix l) :
    rateStrip l = (none, l) := by
  have h1 := hno (['%'], 3) (by simp [rateSuffixes])
  have h2 := hno (['p', 'c'], 3) (by simp [rateSuffixes])
  have h3 := hno (['p', 'e', 'r', 'c', 'e', 'n', 't'], 3) (by simp [rateSuffixes])
  have h4 := hno (['p', 'p', 'm'], 6) (by simp [rateSuffixes])
  simp only [rateStrip, rateSuffixes, List.foldl_cons, List.foldl_nil,
    h1, h2, h3, h4, Bool.false_eq_true, if_false]

theorem rateStrip_pct {t : List Char} (hno : noRateSuffix t) :
    rateStrip (t ++ ['%']) = (some 3, t) := by
  have h1 : List.isSuffixOf ['%'] (t ++ ['%']) = true := by
    simp [List.isSuffixOf, List.isPrefixOf]
  have h2 : List.isSuffixOf ['p', 'c'] t = false :=
    hno (['p', 'c'], 3) (by simp [rateSuffixes])
  have h3 : List.isSuffixOf ['p', 'e', 'r', 'c', 'e', 'n', 't'] t = false :=
    hno (['p', 'e', 'r', 'c', 'e', 'n', 't'], 3) (by simp [rateSuffixes])
  have h4 : List.isSuffixOf ['p', 'p', 'm'] t = false :=
    hno (['p', 'p', 'm'], 6) (by simp [rateSuffixes])
  have htk := take_append_sub t ['%']
  simp only [rateStrip, rateSuffixes, List.foldl_cons, List.foldl_nil,
    h1, if_true, htk, h2, h3, h4, Bool.false_eq_true, if_false]

theorem rateStrip_pc {t : List Char} (hno : noRateSuffix t) :
    rateStrip (t ++ ['p', 'c']) = (some 3, t) := by
  have h1 : List.isSuffixOf ['%'] (t ++ ['p', 'c']) = false := by
    simp [List.isSuffixOf, List.isPrefixOf]
  have h2 : List.isSuffixOf ['p', 'c'] (t ++ ['p', 'c']) = true := by
    simp [List.isSuffixOf, List.isPrefixOf]
  have h3 : List.isSuffixOf ['p', 'e', 'r', 'c', 'e', 'n', 't'] t = false :=
    hno (['p', 'e', 'r', 'c', 'e', 'n', 't'], 3) (by simp [rateSuffixes])
  have h4 : List.isSuffixOf ['p', 'p', 'm'] t = false :=
    hno (['p', 'p', 'm'], 6) (by simp [rateSuffixes])
  have htk := take_append_sub t ['p', 'c']
  simp only [rateStrip, rateSuffixes, List.foldl_cons, List.foldl_nil,
    h1, h2, if_true, htk, h3, h4, Bool.false_eq_true, if_false]

theorem rateStrip_percent {t : List Char} (hno : noRateSuffix t) :
    rateStrip (t ++ ['p', 'e', 'r', 'c', 'e', 'n', 't']) = (some 3, t) := by
  have h1 : List.isSuffixOf ['%'] (t ++ ['p', 'e', 'r', 'c', 'e', 'n', 't']) =
      false := by
    simp [List.isSuffixOf, List.isPrefixOf]
  have h2 : List.isSuffixOf ['p', 'c'] (t ++ ['p', 'e', 'r', 'c', 'e', 'n', 't']) =
      false := by
    simp [List.isSuffixOf, List.isPrefixOf]
  have h3 : List.isSuffixOf ['p', 'e', 'r', 'c', 'e', 'n', 't']
      (t ++ ['p', 'e', 'r', 'c', 'e', 'n', 't']) = true := by
    simp [List.isSuffixOf, List.isPrefixOf]
  have h4 : List.isSuffixOf ['p', 'p', 'm'] t = false :=
    hno (['p', 'p', 'm'], 6) (by simp [rateSuffixes])
  have htk := take_append_sub t ['p', 'e', 'r', 'c', 'e', 'n', 't']
  simp only [rateStrip, rateSuffixes, List.foldl_cons, List.foldl_nil,
    h1, h2, h3, if_true, htk, h4, Bool.false_eq_true, if_false]

theorem rateStrip_ppm (t : List Char) :
    rateStrip (t ++ ['p', 'p', 'm']) = (some 6, t) := by
  have h1 : List.isSuffixOf ['%'] (t ++ ['p', 'p', 'm']) = false := by
    simp [List.isSuffixOf, List.isPrefixOf]
  have h2 : List.isSuffixOf ['p', 'c'] (t ++ ['p', 'p', 'm']) = false := by
    simp [List.isSuffixOf, List.isPrefixOf]
  have h3 : List.isSuffixOf ['p', 'e', 'r', 'c', 'e', 'n', 't']
      (t ++ ['p', 'p', 'm']) = false := by
    simp [List.isSuffixOf, List.isPrefixOf]
  have h4 : List.isSuffixOf ['p', 'p', 'm'] (t ++ ['p', 'p', 'm']) = true := by
    simp [List.isSuffixOf, List.isPrefixOf]
  have htk := take_append_sub t ['p', 'p', 'm']
  simp only [rateStrip, rateSuffixes, List.foldl_cons, List.foldl_nil,
    h1, h2, h3, h4, if_true, htk, Bool.false_eq_true, if_false]

/-- Evaluation of `RateType.convert` after a known strip. -/
theorem rateConvertL_eval {l t : List Char} {k : Nat}
    (hfil : l.filter notCS = l) (hlen : 1 < l.length)
    (hstrip : rateStrip l = (some k, t)) :
    rateConvertL l =
      (match pyIntL t with
       | some n => some (.flt n k)
       | none =>
         match pyFloatL t with
         | some (.fin m k0) => some (.flt m (k0 + k))
         | some .pinf => some (.inf false)
         | some .ninf => some (.inf true)
         | some .nan => some .nan
         | none => none) := by
  simp only [rateConvertL]
  rw [hfil, if_pos hlen, hstrip]

/-- `RateType.convert` fails whenever no recognised suffix ends the
translated string. -/
theorem rateConvertL_no_suffix {l : List Char}
    (hno : noRateSuffix (l.filter notCS)) : rateConvertL l = none := by
  simp only [rateConvertL]
  by_cases hlen : 1 < (l.filter notCS).length
  · rw [if_pos hlen, rateStrip_no_suffix hno]
  · rw [if_neg hlen]

/-! ## The inferrer's trial loop -/

/-- `find?` returns `A` when every satisfying element is `A`, `B` or
`C`, all three satisfy `p`, and `A` comes first. -/
theorem find?_first {α : Type} [DecidableEq α] {p : α → Bool} {l : List α}
    {A B C : α} (hA : A ∈ l) (hpA : p A = true) (hpB : p B = true)
    (hpC : p C = true) (hAB : A ≠ B) (hAC : A ≠ C)
    (hall : ∀ x ∈ l, p x = true → x = A ∨ x = B ∨ x = C)
    (hidxB : l.indexOf A < l.indexOf B) (hidxC : l.indexOf A < l.indexOf C) :
    l.find? p = some A := by
  induction l with
  | nil => exact absurd hA (by simp)
  | cons h t ih =>
    rw [List.find?_cons]
    cases hph : p h with
    | true =>
      rcases hall h (by simp) hph with rfl | rfl | rfl
      · rfl
      · exfalso
        rw [List.indexOf_cons_self] at hidxB
        omega
      · exfalso
        rw [List.indexOf_cons_self] at hidxC
        omega
    | false =>
      have hne : ∀ y : α, p y = true → h ≠ y := by
        rintro y hy rfl
        rw [hy] at hph
        exact absurd hph (by simp)
      have hhA := hne A hpA
      have hhB := hne B hpB
      have hhC := hne C hpC
      have hAt : A ∈ t := by
        rcases List.mem_cons.mp hA with rfl | hA2
        · exact absurd rfl hhA
        · exact hA2
      refine ih hAt (fun x hx hpx => hall x (by simp [hx]) hpx) ?_ ?_
      · rw [List.indexOf_cons_ne t hhA, List.indexOf_cons_ne t hhB] at hidxB
        omega
      · rw [List.indexOf_cons_ne t hhA, List.indexOf_cons_ne t hhC] at hidxC
        omega

/-- `accepts` ignores the registry except for the place type. -/
theorem accepts_g_irrel (g g' : GeoNames) {t : CellT} (h : t ≠ .geo)
    (s : String) : accepts g t s = accepts g' t s := by
  cases t <;> first | rfl | (exact absurd rfl h)

/-- Lift a registry-free acceptance check over the catalogue to any
registry rejecting `s` as a place. -/
theorem hall_generic {g : GeoNames} {s : String} {A B : CellT}
    (hg : geoConvert g s = none)
    (hdec : ∀ x ∈ knownTypes, x ≠ .geo → accepts regEmpty x s = true →
      x = A ∨ x = B ∨ x = .string) :
    ∀ x ∈ knownTypes, accepts g x s = true → x = A ∨ x = B ∨ x = .string := by
  intro x hx hacc
  by_cases hxg : x = .geo
  · subst hxg
    have h2 : (geoConvert g s).isSome = true := hacc
    rw [hg] at h2
    exact absurd h2 (by decide)
  · rw [accepts_g_irrel g regEmpty hxg] at hacc
    exact hdec x hx hxg hacc

/-- The inferrer returns `A` when the only accepting known types are
`A`, one ancestor `B` of `A`, and the universal `String` fallback. -/
theorem inferOneValue_eq {g : GeoNames} {order : List CellT} {s : String}
    {A B : CellT} (hv : ValidOrder order) (htrim : stripStr s = s)
    (hmiss : missingAccepts s = false) (hA : A ∈ knownTypes)
    (hAB : A ≠ B) (hAstr : A ≠ .string) (hacc : accepts g A s = true)
    (haccB : accepts g B s = true) (hBpath : B ∈ getPath A)
    (hstrp : CellT.string ∈ getPath A)
    (hall : ∀ x ∈ knownTypes, accepts g x s = true →
      x = A ∨ x = B ∨ x = .string) :
    inferOneValue g order (some s) = some A := by
  obtain ⟨hsub, hsup, hord⟩ := hv
  simp only [inferOneValue]
  rw [htrim, hmiss]
  rw [if_neg (by simp)]
  refine find?_first (hsup A hA) hacc haccB ?_ hAB hAstr
    (fun x hx hpx => hall x (hsub x hx) hpx) ?_ ?_
  · rfl
  · exact hord A (hsup A hA) B hBpath (Ne.symm hAB)
  · exact hord A (hsup A hA) .string hstrp (Ne.symm hAstr)

/-- The inferrer returns `String` when no other known type accepts. -/
theorem inferOneValue_eq_string {g : GeoNames} {order : List CellT}
    {s : String} (hv : ValidOrder order) (htrim : stripStr s = s)
    (hmiss : missingAccepts s = false)
    (hall : ∀ x ∈ knownTypes, accepts g x s = true → x = .string) :
    inferOneValue g order (some s) = some .string := by
  obtain ⟨hsub, hsup, _⟩ := hv
  simp only [inferOneValue]
  rw [htrim, hmiss]
  rw [if_neg (by simp)]
  cases hf : order.find? (fun t => accepts g t s) with
  | none =>
    rw [List.find?_eq_none] at hf
    have hstr : CellT.string ∈ order := hsup .string (by decide)
    exact absurd (show accepts g .string s = true from rfl) (by simpa using hf _ hstr)
  | some x =>
    have hpx := List.find?_some hf
    have hxmem := List.mem_of_find?_eq_some hf
    exact congrArg some (hall x (hsub x hxmem) hpx)

/-! ## Lemmas about `split` -/

theorem splitCharGo_no_sep {c : Char} {l : List Char} (h : c ∉ l) :
    ∀ acc, splitCharGo c l acc = [acc.reverse ++ l] := by
  induction l with
  | nil => intro acc; simp [splitCharGo]
  | cons x xs ih =>
    intro acc
    have hxc : ¬(x = c) := by
      rintro rfl
      exact h (by simp)
    simp only [splitCharGo, hxc, if_false]
    rw [ih (fun hc => h (by simp [hc])) (x :: acc)]
    simp

theorem splitCharGo_skip {c : Char} {pre : List Char} (h : c ∉ pre) :
    ∀ l acc, splitCharGo c (pre ++ l) acc = splitCharGo c l (pre.reverse ++ acc) := by
  induction pre with
  | nil => intro l acc; simp
  | cons x xs ih =>
    intro l acc
    have hxc : ¬(x = c) := by
      rintro rfl
      exact h (by simp)
    simp only [List.cons_append, splitCharGo, hxc, if_false, List.append_eq]
    rw [ih (fun hc => h (by simp [hc])) l (x :: acc)]
    simp

/-! ## Claim theorems -/

/-- C5: `Missing` is a two-sided identity for unification: for every
catalogue type `A`, `unify_two(A, Missing) = A` and
`unify_two(Missing, A) = A`. -/
theorem C5_missing_identity (A : CellT) :
    unifyTwo A .missing = some A ∧ unifyTwo .missing A = some A := by
  cases A <;> exact ⟨by decide, by decide⟩

/-- C4: for distinct non-Missing types, `unify_two(A, B)` is the first
element of `ancestor_path(A)` that occurs in `ancestor_path(B)` (where
`ancestor_path` follows the specification's recursive description and
coincides with the source's `get_path`), with the "incompatible" outcome
modelled as `none`. -/
theorem C4_unify_first_common :
    (∀ t : CellT, getPath t = ancestorPathSpec t) ∧
    (∀ a b : CellT, a ≠ b → a ≠ .missing → b ≠ .missing →
      unifyTwo a b = firstCommon (ancestorPathSpec a) (ancestorPathSpec b)) := by
  constructor
  · intro t
    cases t <;> decide
  · intro a b hab ha hb
    cases a <;> cases b <;>
      first
        | exact absurd rfl hab
        | exact absurd rfl ha
        | exact absurd rfl hb
        | decide

/-- C4 witness: a concrete multi-parent instance, `unify_two(Year,
Decade)`, matches the first-common-ancestor description (both resolve to
`Number`). -/
theorem C4_witness :
    unifyTwo .year .decade =
      firstCommon (ancestorPathSpec .year) (ancestorPathSpec .decade) :=
  C4_unify_first_common.2 .year .decade (by decide) (by decide) (by decide)

/-- C3 counterexample: the claim says `YearRange` fails whenever either
bound lies outside `[1800, 2100]`, but the source never checks the second
bound: `"1990-5000"` is accepted with value `(1990, 5000)`. -/
theorem C3_counterexample :
    yearRangeConvert "1990-5000" = some (1990, 5000) ∧
      ¬((5000 : Int) ≤ 2100) := by
  exact ⟨by decide, by decide⟩

/-- C3 (amended): `YearRange` accepts `"A-B"` whenever both halves parse
as Python ints and `A ∈ [1800, 2100]`; `B` is unchecked, and the value is
the pair `(A, B)`. -/
theorem C3_yearrange (s1 s2 : List Char) (a b : Int)
    (h1 : '-' ∉ s1) (h2 : '-' ∉ s2)
    (ha : pyIntL s1 = some a) (hb : pyIntL s2 = some b) :
    yearRangeConvert ((s1 ++ '-' :: s2).asString) =
      if 1800 ≤ a ∧ a ≤ 2100 then some (a, b) else none := by
  have hsplit : splitChar '-' (s1 ++ '-' :: s2) = [s1, s2] := by
    rw [splitChar, splitCharGo_skip h1 ('-' :: s2) []]
    simp only [splitCharGo, if_pos rfl]
    rw [splitCharGo_no_sep h2 []]
    simp
  unfold yearRangeConvert
  rw [toList_asString, hsplit]
  simp only [ha, hb]
  by_cases hr : 1800 ≤ a ∧ a ≤ 2100
  · rw [if_pos hr, if_neg (by omega)]
  · rw [if_neg hr, if_pos (by omega)]

/-- C3 witness: `"1990-1999"` is in range and parses to `(1990, 1999)`. -/
theorem C3_witness :
    yearRangeConvert (("1990".toList ++ '-' :: "1999".toList).asString) =
      if 1800 ≤ (1990 : Int) ∧ (1990 : Int) ≤ 2100
      then some ((1990 : Int), (1999 : Int)) else none :=
  C3_yearrange "1990".toList "1999".toList 1990 1999 (by decide) (by decide)
    (by decide) (by decide)

/-- C10: for every two-digit decade token (length ≥ 3, ending `0s`,
number below 100 before the `s`), `DecadeType` keeps the bare two-digit
number as its converted value and index form, while the query rendering
shifts the decade into the 1900s and enumerates those ten years — so the
index form and the query fragment denote different year tokens. -/
theorem C10_decade :
    (∀ (s : String) (y : Int), 3 ≤ s.toList.length →
      s.toList.getLast? = some 's' → s.toList.dropLast.getLast? = some '0' →
      pyIntL s.toList.dropLast = some y → y < 100 →
      decadeConvert s = some y ∧ decadeToIndex s = some (renderIntStr y) ∧
      decadeToTerm s =
        some (orYears ((List.range 10).map (fun i => (y + 1900) + (i : Int))))) ∧
    (decadeConvert "90s" = some 90 ∧ decadeToIndex "90s" = some "90" ∧
     decadeToTerm "90s" = some ("#or( 1990*.date 1991*.date 1992*.date " ++
       "1993*.date 1994*.date 1995*.date 1996*.date 1997*.date " ++
       "1998*.date 1999*.date )") ∧
     ("90" : String) ≠ "1990") := by
  constructor
  · intro s y hlen hs h0 hval hy
    refine ⟨?_, ?_, ?_⟩
    · unfold decadeConvert
      rw [if_neg (by omega), if_neg (fun hcon => hcon hs), if_neg (fun hcon => hcon h0), hval]
    · unfold decadeToIndex decadeConvert
      rw [if_neg (by omega), if_neg (fun hcon => hcon hs), if_neg (fun hcon => hcon h0), hval]
      rfl
    · unfold decadeToTerm
      rw [if_neg (by omega), if_neg (fun hcon => hcon hs), if_neg (fun hcon => hcon h0), hval]
      simp only [if_pos hy]
  · exact ⟨by decide, by decide, by decide, by decide⟩

/-- C10 witness: the token `"90s"` instantiates the general statement. -/
theorem C10_witness :
    decadeConvert "90s" = some 90 ∧
      decadeToIndex "90s" = some (renderIntStr 90) ∧
      decadeToTerm "90s" =
        some (orYears ((List.range 10).map (fun i => ((90 : Int) + 1900) + (i : Int)))) :=
  C10_decade.1 "90s" 90 (by decide) (by decide) (by decide) (by decide)
    (by decide)

/-- C8: `RateType.convert` fails on every input whose translated form
carries no recognised suffix, and on suffixed input scales the numeric
remainder by exactly `10^(-3)` for `%`, `pc`, `percent` and `10^(-6)`
for `ppm`; in particular `convert("42%")` is `42/1000`, not `42/100`.
(Float values are modelled as exact rationals.) -/
theorem C8_rate_scale :
    (∀ s : String, noRateSuffix (s.toList.filter notCS) → rateConvert s = none) ∧
    (∀ (t : List Char) (n : Int), t.filter notCS = t → noRateSuffix t →
      pyIntL t = some n →
      (rateConvertL (t ++ ['%'])).bind PyNum.toRat = some ((n : ℚ) / 1000) ∧
      (rateConvertL (t ++ ['p', 'c'])).bind PyNum.toRat = some ((n : ℚ) / 1000) ∧
      (rateConvertL (t ++ ['p', 'e', 'r', 'c', 'e', 'n', 't'])).bind PyNum.toRat =
        some ((n : ℚ) / 1000) ∧
      (rateConvertL (t ++ ['p', 'p', 'm'])).bind PyNum.toRat =
        some ((n : ℚ) / 1000000)) ∧
    (∀ (t : List Char) (m : Int) (k : Nat), t.filter notCS = t → noRateSuffix t →
      pyIntL t = none → pyFloatL t = some (.fin m k) →
      (rateConvertL (t ++ ['%'])).bind PyNum.toRat = some ((m : ℚ) / 10 ^ (k + 3)) ∧
      (rateConvertL (t ++ ['p', 'p', 'm'])).bind PyNum.toRat =
        some ((m : ℚ) / 10 ^ (k + 6))) ∧
    ((rateConvert "42%").bind PyNum.toRat = some ((42 : ℚ) / 1000) ∧
      (42 : ℚ) / 1000 ≠ (42 : ℚ) / 100) := by
  have hfil : ∀ (t suff : List Char), t.filter notCS = t →
      (∀ c ∈ suff, notCS c = true) → (t ++ suff).filter notCS = t ++ suff := by
    intro t suff ht hs
    rw [List.filter_append, ht, List.filter_eq_self.mpr hs]
  have hlen : ∀ (t suff : List Char), t ≠ [] → suff ≠ [] →
      1 < (t ++ suff).length := by
    intro t suff ht hs
    have h1 := List.length_pos.mpr ht
    have h2 := List.length_pos.mpr hs
    rw [List.length_append]
    omega
  have hchars1 : ∀ c ∈ (['%'] : List Char), notCS c = true := by decide
  have hchars2 : ∀ c ∈ (['p', 'c'] : List Char), notCS c = true := by decide
  have hchars3 : ∀ c ∈ (['p', 'e', 'r', 'c', 'e', 'n', 't'] : List Char),
      notCS c = true := by decide
  have hchars4 : ∀ c ∈ (['p', 'p', 'm'] : List Char), notCS c = true := by decide
  refine ⟨?_, ?_, ?_, ?_⟩
  · intro s hno
    exact rateConvertL_no_suffix hno
  · intro t n htf hno hint
    have htne : t ≠ [] := by
      rintro rfl
      rw [show pyIntL ([] : List Char) = none from by decide] at hint
      exact absurd hint (by simp)
    refine ⟨?_, ?_, ?_, ?_⟩
    · rw [rateConvertL_eval (hfil t _ htf hchars1)
          (hlen t _ htne (by simp)) (rateStrip_pct hno), hint]
      show some ((n : ℚ) / 10 ^ (3 : Nat)) = some ((n : ℚ) / 1000)
      norm_num
    · rw [rateConvertL_eval (hfil t _ htf hchars2)
          (hlen t _ htne (by simp)) (rateStrip_pc hno), hint]
      show some ((n : ℚ) / 10 ^ (3 : Nat)) = some ((n : ℚ) / 1000)
      norm_num
    · rw [rateConvertL_eval (hfil t _ htf hchars3)
          (hlen t _ htne (by simp)) (rateStrip_percent hno), hint]
      show some ((n : ℚ) / 10 ^ (3 : Nat)) = some ((n : ℚ) / 1000)
      norm_num
    · rw [rateConvertL_eval (hfil t _ htf hchars4)
          (hlen t _ htne (by simp)) (rateStrip_ppm t), hint]
      show some ((n : ℚ) / 10 ^ (6 : Nat)) = some ((n : ℚ) / 1000000)
      norm_num
  · intro t m k htf hno hint hflt
    have htne : t ≠ [] := by
      rintro rfl
      rw [show pyFloatL ([] : List Char) = none from by decide] at hflt
      exact absurd hflt (by simp)
    constructor
    · rw [rateConvertL_eval (hfil t _ htf hchars1)
          (hlen t _ htne (by simp)) (rateStrip_pct hno), hint, hflt]
      rfl
    · rw [rateConvertL_eval (hfil t _ htf hchars4)
          (hlen t _ htne (by simp)) (rateStrip_ppm t), hint, hflt]
      rfl
  · constructor
    · have h42 : rateConvert "42%" = some (.flt 42 3) := by decide
      rw [h42]
      show some ((42 : ℚ) / 10 ^ (3 : Nat)) = some ((42 : ℚ) / 1000)
      norm_num
    · norm_num

/-- C8 witness: the remainder `42` with each suffix; e.g.
`convert("42%") = 42/1000`. -/
theorem C8_witness :
    (rateConvertL ("42".toList ++ ['%'])).bind PyNum.toRat =
      some ((42 : ℚ) / 1000) :=
  (C8_rate_scale.2.1 "42".toList 42 (by decide) (by decide) (by decide)).1

/-- C2 counterexample: the parent-acceptance invariant fails.  `Rate`'s
only declared parent is `Number`, `Rate` accepts `"42%"`, and `Number`
rejects it. -/
theorem C2_counterexample :
    parents .rate = [.number] ∧ (rateConvert "42%").isSome = true ∧
      numberConvert "42%" = none := by
  exact ⟨rfl, by decide, by decide⟩

/-- C2 (amended): the parent-acceptance invariant holds only for the
types whose parent is the universal `String` (which accepts everything)
and for `Year → Number` and `BoolFromInt → Number`; it fails for `Rate`,
`Currency` and `Decade` (whose only parent `Number` rejects their
suffixed/symbol-bearing forms) and for `YearRange → Date` and the
`Year → Date` edge (`Date` accepts neither bare years nor year ranges). -/
theorem C2_parent_acceptance :
    (∀ s : String, (stringConvert s).isSome = true) ∧
    (∀ (s : String) (n : Int), yearConvert s = some n →
      (numberConvert s).isSome = true) ∧
    (∀ (s : String) (b : Bool), boolFromIntConvert s = some b →
      (numberConvert s).isSome = true) ∧
    (parents .rate = [.number] ∧ (rateConvert "42%").isSome = true ∧
      numberConvert "42%" = none) ∧
    (parents .currency = [.number] ∧ (currencyConvert "$42").isSome = true ∧
      numberConvert "$42" = none) ∧
    (parents .decade = [.number] ∧ (decadeConvert "1990s").isSome = true ∧
      numberConvert "1990s" = none) ∧
    (parents .yearRange = [.date] ∧ (yearRangeConvert "1990-1999").isSome = true ∧
      dateConvert "1990-1999" = none) ∧
    (parents .year = [.date, .number] ∧ (yearConvert "1999").isSome = true ∧
      dateConvert "1999" = none) := by
  refine ⟨?_, ?_, ?_, ⟨rfl, by decide, by decide⟩, ⟨rfl, by decide, by decide⟩,
    ⟨rfl, by decide, by decide⟩, ⟨rfl, by decide, by decide⟩,
    ⟨rfl, by decide, by decide⟩⟩
  · intro s
    rfl
  · intro s n h
    unfold yearConvert at h
    cases hint : pyInt s with
    | none => rw [hint] at h; exact absurd h (by simp)
    | some y =>
      have := numberConvertL_of_pyIntL (l := s.toList) (n := y) hint
      unfold numberConvert
      rw [this]
      rfl
  · intro s b h
    unfold boolFromIntConvert at h
    cases hint : pyInt s with
    | none => rw [hint] at h; exact absurd h (by simp)
    | some y =>
      have := numberConvertL_of_pyIntL (l := s.toList) (n := y) hint
      unfold numberConvert
      rw [this]
      rfl

/-- C2 witness: `Year` accepts `"1905"` and so does its parent
`Number`. -/
theorem C2_witness :
    yearConvert "1905" = some 1905 ∧ (numberConvert "1905").isSome = true :=
  ⟨by decide, C2_parent_acceptance.2.1 "1905" 1905 (by decide)⟩

/-- C9 counterexample: canonicalisation does not round-trip for `Date`:
`"05/1999"` is accepted and canonicalises to `"1999_05"`, but no date
format re-accepts that form (none contains an underscore). -/
theorem C9_counterexample :
    dateConvert "05/1999" = some "1999_05" ∧ dateConvert "1999_05" = none := by
  exact ⟨by decide, by decide⟩

/-- C9 (amended): the convert-then-render pipeline is stable for
`Number` and `Year` — the index form of an accepted string is itself
accepted and canonicalises to itself — while `Date`'s canonical forms
(underscore-separated) are not re-accepted by `Date`. -/
theorem C9_roundtrip :
    (∀ (s : String) (v : PyNum), numberConvert s = some v →
      ∃ v2, numberConvert (renderPyNumStr v) = some v2 ∧
        renderPyNum v2 = renderPyNum v) ∧
    (∀ (s : String) (y : Int), yearConvert s = some y →
      yearToIndex s = some (renderIntStr y) ∧
      yearConvert (renderIntStr y) = some y ∧
      yearToIndex (renderIntStr y) = some (renderIntStr y)) ∧
    (dateConvert "05/1999" = some "1999_05" ∧ dateConvert "1999_05" = none) := by
  refine ⟨?_, ?_, by decide, by decide⟩
  · intro s v _
    have h := numberConvert_stable v
    unfold numberConvert
    rw [show (renderPyNumStr v).toList = renderPyNum v from rfl]
    exact h
  · intro s y h
    unfold yearConvert at h
    cases hint : pyInt s with
    | none => rw [hint] at h; exact absurd h (by simp)
    | some y0 =>
      rw [hint, Option.some_bind] at h
      by_cases hrange : y0 < 1700 ∨ 2100 < y0
      · rw [if_pos hrange] at h
        exact absurd h (by simp)
      · rw [if_neg hrange] at h
        obtain rfl : y0 = y := by simpa using h
        have hround : pyInt (renderIntStr y0) = some y0 := by
          unfold pyInt
          rw [show (renderIntStr y0).toList = renderInt y0 from rfl]
          exact pyIntL_renderInt y0
        refine ⟨?_, ?_, ?_⟩
        · unfold yearToIndex
          rw [hint]
          rfl
        · unfold yearConvert
          rw [hround, Option.some_bind, if_neg hrange]
        · unfold yearToIndex
          rw [hround]
          rfl

/-- C9 witness: the accepted value `"05"` (Number) and `"1999"` (Year)
round-trip through their index forms. -/
theorem C9_witness :
    (∃ v2, numberConvert (renderPyNumStr (.int 42)) = some v2 ∧
      renderPyNum v2 = renderPyNum (.int 42)) ∧
    yearConvert (renderIntStr 1999) = some 1999 :=
  ⟨C9_roundtrip.1 "42" (.int 42) (by decide),
   (C9_roundtrip.2.1 "1999" 1999 (by decide)).2.1⟩

/-- C7 counterexample: for a place matching `"state of " + admin1name`,
`extend` does not suppress the admin-1 segment — it suppresses the
place's own segment and keeps the admin-1 name, yielding
`australia_newsouthwales`, not the bare country name `australia` that
the claim predicts for an empty admin-2. -/
theorem C7_counterexample :
    geoExtend regNSW "State of New South Wales" =
      some "australia_newsouthwales" ∧
    ("australia_newsouthwales" : String) ≠ "australia" := by
  exact ⟨by decide, by decide⟩

/-- C7 (amended): in the `"state of " + admin1name` special case,
`extend` blanks the place's own segment but keeps the admin-1 name
(without appending its usual separator): with an empty admin-2 the
result is `country_admin1name`; with a nonempty admin-2 name the
admin-2 name follows the admin-1 name with no separator between them
and a trailing separator at the end. -/
theorem C7_state_of :
    (∀ (g : GeoNames) (raw nm a1 : String),
      geoLookup g raw = some nm → nm ≠ g.country →
      g.names nm = some (a1, "") → a1 ≠ "" →
      g.admin1 a1 ≠ nm → "stateof" ++ g.admin1 a1 = nm →
      geoExtend g raw = some (g.country ++ "_" ++ g.admin1 a1)) ∧
    (∀ (g : GeoNames) (raw nm a1 a2 : String),
      geoLookup g raw = some nm → nm ≠ g.country →
      g.names nm = some (a1, a2) → a1 ≠ "" → a2 ≠ "" →
      g.admin2 a2 ≠ nm → g.admin2 a2 ≠ "" →
      g.admin1 a1 ≠ nm → "stateof" ++ g.admin1 a1 = nm →
      geoExtend g raw = some (g.country ++ "_" ++ g.admin1 a1 ++
        (g.admin2 a2 ++ "_"))) := by
  constructor
  · intro g raw nm a1 hlook hnc hnames ha1 hxnm hstate
    simp only [geoExtend, hlook, hnames]
    simp [hnc, ha1, hxnm, hstate]
  · intro g raw nm a1 a2 hlook hnc hnames ha1 ha2 hx2nm hx2 hxnm hstate
    simp only [geoExtend, hlook, hnames]
    simp [hnc, ha1, ha2, hx2nm, hx2, hxnm, hstate]

/-- C7 witness: the concrete registry instantiates the amended rule. -/
theorem C7_witness :
    geoExtend regNSW "State of New South Wales" =
      some (regNSW.country ++ "_" ++ regNSW.admin1 "01") :=
  C7_state_of.1 regNSW "State of New South Wales" "stateofnewsouthwales" "01"
    (by decide) (by decide) (by decide) (by decide) (by decide) (by decide)

/-- C1 counterexample: `infer_one_value("2015-16")` does not return
`FinancialYear`: `FYType` is not listed in `Inferrer.known_types`, and
the value is captured by `YearRange` (whose second bound is unchecked).
Evaluated here with the concrete trial order `order0` and the empty
registry; the amended theorem shows the result for every valid order and
every registry not resolving these tokens. -/
theorem C1_counterexample :
    inferOneValue regEmpty order0 (some "2015-16") = some .yearRange ∧
      CellT.yearRange ≠ CellT.fy ∧ CellT.fy ∉ knownTypes := by
  exact ⟨by decide, by decide, by decide⟩

/-- C1 (amended): classification tries the catalogue types
most-restrictive-first and returns the first whose conversion succeeds;
on the worked examples it yields Number for `"42"`, Rate for `"42%"`,
Currency for `"$42"`, Decade for `"1990s"`, YearRange for `"1990-1999"`,
Missing for `""` — and YearRange (not FinancialYear, which is absent
from the catalogue) for `"2015-16"`.  Stated for every valid
most-restrictive-first order and every registry in which these tokens
are not place names. -/
theorem C1_infer_examples (order : List CellT) (g : GeoNames)
    (hv : ValidOrder order)
    (hg : ∀ x ∈ (["42", "42%", "$42", "1990s", "1990-1999", "2015-16"] :
      List String), geoConvert g x = none) :
    inferOneValue g order (some "42") = some .number ∧
    inferOneValue g order (some "42%") = some .rate ∧
    inferOneValue g order (some "$42") = some .currency ∧
    inferOneValue g order (some "1990s") = some .decade ∧
    inferOneValue g order (some "1990-1999") = some .yearRange ∧
    inferOneValue g order (some "2015-16") = some .yearRange ∧
    inferOneValue g order (some "") = some .missing ∧
    CellT.fy ∉ knownTypes := by
  refine ⟨?_, ?_, ?_, ?_, ?_, ?_, rfl, by decide⟩
  · exact inferOneValue_eq (B := .string) hv (by decide) (by decide) (by decide)
      (by decide) (by decide)
      (show (numberConvert "42").isSome = true by decide)
      (show (stringConvert "42").isSome = true by decide)
      (by decide) (by decide)
      (hall_generic (hg _ (by simp)) (by decide))
  · exact inferOneValue_eq (B := .string) hv (by decide) (by decide) (by decide)
      (by decide) (by decide)
      (show (rateConvert "42%").isSome = true by decide)
      (show (stringConvert "42%").isSome = true by decide)
      (by decide) (by decide)
      (hall_generic (hg _ (by simp)) (by decide))
  · exact inferOneValue_eq (B := .string) hv (by decide) (by decide) (by decide)
      (by decide) (by decide)
      (show (currencyConvert "$42").isSome = true by decide)
      (show (stringConvert "$42").isSome = true by decide)
      (by decide) (by decide)
      (hall_generic (hg _ (by simp)) (by decide))
  · exact inferOneValue_eq (B := .string) hv (by decide) (by decide) (by decide)
      (by decide) (by decide)
      (show (decadeConvert "1990s").isSome = true by decide)
      (show (stringConvert "1990s").isSome = true by decide)
      (by decide) (by decide)
      (hall_generic (hg _ (by simp)) (by decide))
  · exact inferOneValue_eq (B := .string) hv (by decide) (by decide) (by decide)
      (by decide) (by decide)
      (show (yearRangeConvert "1990-1999").isSome = true by decide)
      (show (stringConvert "1990-1999").isSome = true by decide)
      (by decide) (by decide)
      (hall_generic (hg _ (by simp)) (by decide))
  · exact inferOneValue_eq (B := .string) hv (by decide) (by decide) (by decide)
      (by decide) (by decide)
      (show (yearRangeConvert "2015-16").isSome = true by decide)
      (show (stringConvert "2015-16").isSome = true by decide)
      (by decide) (by decide)
      (hall_generic (hg _ (by simp)) (by decide))

/-- C1 witness: the concrete order `order0` and the empty registry
instantiate the amended statement. -/
theorem C1_witness :
    inferOneValue regEmpty order0 (some "42") = some CellT.number ∧
    inferOneValue regEmpty order0 (some "42%") = some CellT.rate ∧
    inferOneValue regEmpty order0 (some "$42") = some CellT.currency ∧
    inferOneValue regEmpty order0 (some "1990s") = some CellT.decade ∧
    inferOneValue regEmpty order0 (some "1990-1999") = some CellT.yearRange ∧
    inferOneValue regEmpty order0 (some "2015-16") = some CellT.yearRange ∧
    inferOneValue regEmpty order0 (some "") = some CellT.missing ∧
    CellT.fy ∉ knownTypes :=
  C1_infer_examples order0 regEmpty (by decide) (by decide)

theorem unifyTwo_missing_right (A : CellT) : unifyTwo A .missing = some A := by
  cases A <;> decide

/-- Variant of `hall_generic` when `String` is the only accepting type. -/
theorem hall_generic_str {g : GeoNames} {s : String}
    (hg : geoConvert g s = none)
    (hdec : ∀ x ∈ knownTypes, x ≠ .geo → accepts regEmpty x s = true →
      x = .string) :
    ∀ x ∈ knownTypes, accepts g x s = true → x = .string := by
  intro x hx hacc
  by_cases hxg : x = .geo
  · subst hxg
    have h2 : (geoConvert g s).isSome = true := hacc
    rw [hg] at h2
    exact absurd h2 (by decide)
  · rw [accepts_g_irrel g regEmpty hxg] at hacc
    exact hdec x hx hxg hacc

/-- C6: for a column with at least two cells, the first cell is kept as
a header exactly when unifying its type with the unified type of the
remaining cells changes that type; concretely, `["Year", "1999", "2000",
"2001"]` keeps `"Year"` as header with data type Year (strictly narrower
than String), while `["1999", "2000", "2001"]` detects no header. -/
theorem C6_header_detection :
    (∀ (g : GeoNames) (order : List CellT) (c0 : String)
       (rest : List (Option String)) (ht bt : CellT),
      rest ≠ [] →
      inferOneValue g order (some c0) = some ht →
      unifyList (rest.map (inferOneValue g order)) = some bt →
      ((inferOneColumn g order (some c0 :: rest)).1 = some c0 ↔
        unifyTwo ht bt ≠ some bt)) ∧
    (∀ (order : List CellT) (g : GeoNames), ValidOrder order →
      (∀ x ∈ (["Year", "1999", "2000", "2001"] : List String),
        geoConvert g x = none) →
      inferOneColumn g order
          [some "Year", some "1999", some "2000", some "2001"] =
        (some "Year", some .year) ∧
      inferOneColumn g order [some "1999", some "2000", some "2001"] =
        (none, some .year) ∧
      (CellT.year ≠ CellT.string ∧ CellT.string ∈ getPath CellT.year)) := by
  constructor
  · intro g order c0 rest ht bt hne hht hbt
    obtain ⟨c1, rest2, rfl⟩ : ∃ c1 rest2, rest = c1 :: rest2 := by
      cases rest with
      | nil => exact absurd rfl hne
      | cons a b => exact ⟨a, b, rfl⟩
    simp only [inferOneColumn]
    rw [hbt, hht]
    show ((if some bt = some CellT.missing ∧ ht ≠ CellT.missing then
            ((some c0 : Option String), (some bt : Option CellT))
          else if unifyTwoOpt (some ht) (some bt) = some bt then (none, some bt)
          else (some c0, some bt)).1 = some c0) ↔ unifyTwo ht bt ≠ some bt
    by_cases hmiss : bt = CellT.missing ∧ ht ≠ CellT.missing
    · obtain ⟨rfl, hhtm⟩ := hmiss
      rw [if_pos ⟨rfl, hhtm⟩]
      simp only [true_iff]
      rw [unifyTwo_missing_right ht]
      simp [hhtm]
    · rw [if_neg (by simpa using hmiss)]
      by_cases hu : unifyTwo ht bt = some bt
      · rw [if_pos (show unifyTwoOpt (some ht) (some bt) = some bt from hu)]
        simp [hu]
      · rw [if_neg (show ¬(unifyTwoOpt (some ht) (some bt) = some bt) from hu)]
        simp [hu]
  · intro order g hv hg
    have hY : inferOneValue g order (some "Year") = some .string :=
      inferOneValue_eq_string hv (by decide) (by decide)
        (hall_generic_str (hg _ (by simp)) (by decide))
    have h99 : inferOneValue g order (some "1999") = some .year :=
      inferOneValue_eq (B := .number) hv (by decide) (by decide) (by decide)
        (by decide) (by decide)
        (show (yearConvert "1999").isSome = true by decide)
        (show (numberConvert "1999").isSome = true by decide)
        (by decide) (by decide)
        (hall_generic (hg _ (by simp)) (by decide))
    have h00 : inferOneValue g order (some "2000") = some .year :=
      inferOneValue_eq (B := .number) hv (by decide) (by decide) (by decide)
        (by decide) (by decide)
        (show (yearConvert "2000").isSome = true by decide)
        (show (numberConvert "2000").isSome = true by decide)
        (by decide) (by decide)
        (hall_generic (hg _ (by simp)) (by decide))
    have h01 : inferOneValue g order (some "2001") = some .year :=
      inferOneValue_eq (B := .number) hv (by decide) (by decide) (by decide)
        (by decide) (by decide)
        (show (yearConvert "2001").isSome = true by decide)
        (show (numberConvert "2001").isSome = true by decide)
        (by decide) (by decide)
        (hall_generic (hg _ (by simp)) (by decide))
    refine ⟨?_, ?_, by decide, by decide⟩
    · simp only [inferOneColumn, List.map_cons, List.map_nil, hY, h99, h00, h01]
      decide
    · simp only [inferOneColumn, List.map_cons, List.map_nil, h99, h00, h01]
      decide

/-- C6 witness: the concrete order `order0` and the empty registry
instantiate the column examples. -/
theorem C6_witness :
    inferOneColumn regEmpty order0
        [some "Year", some "1999", some "2000", some "2001"] =
      (some "Year", some CellT.year) ∧
    inferOneColumn regEmpty order0 [some "1999", some "2000", some "2001"] =
      (none, some CellT.year) :=
  ⟨(C6_header_detection.2 order0 regEmpty (by decide) (by decide)).1,
   (C6_header_detection.2 order0 regEmpty (by decide) (by decide)).2.1⟩
